import Mathlib

/-
Verification of the DCA backend's synchronization/reconciliation engine and
recurring-execution scheduler.

The development shallowly embeds the JavaScript sources:
  * the Swopus feed client (extractTokenSymbol, filterValidPairs, buildLogoUrl),
  * the override-aware catalog store operations of models/syncQueries.js
    (upsertToken, getTokenBySymbol, getGatewayBySlug,
     upsertTradingPairRespectingAdmin, deactivateStalePairsRespectingAdmin),
  * the reconciliation pass of workers/syncWorker.js (syncSwopus),
  * the scheduler of server.js (calculateNextExecution, executeDCAOrder,
    checkAndExecuteDCA) and the cancellation route.

Modelling conventions:
  * SQL rows are Lean structures; tables are lists of rows; an SQL UPDATE is a
    List.map that rewrites exactly the rows its WHERE clause selects.
  * Machine numbers (reserves, amounts, timestamps) are Int; timestamps are
    epoch seconds on a proleptic Gregorian calendar (time-zone offsets and DST
    are outside the model).
  * JavaScript falsiness of 0 and "" is modelled explicitly (jsOrNat, jsOrStr,
    cacheTruthy).
  * Fallible store calls return Option/Except; an async function that can leak
    an exception to its caller returns the committed state paired with
    Option String (the propagated error).
  * The tokens/gateways/trading_pairs DDL is not part of the repository, so its
    constraints (UNIQUE contract_address, UNIQUE (token_from_id, token_to_id,
    gateway_id), admin_disabled DEFAULT false) are modelled from the spec, "3.
    DATA MODEL" and "6. EXTERNAL INTERFACES".  The transactions table CHECK
    constraint is taken verbatim from scripts/init-db.sql.
-/

/-! ### JavaScript-style helpers -/

/-- JS `x || d` for an optional number: `undefined`, `null` and `0` all fall
back to the default. -/
def jsOrNat (o : Option Nat) (d : Nat) : Nat :=
  match o with
  | some 0 => d
  | some (n + 1) => n + 1
  | none => d

/-- JS `x || d` for an optional string: `undefined`, `null` and `""` all fall
back to the default. -/
def jsOrStr (o : Option String) (d : String) : String :=
  match o with
  | some s => if s = "" then d else s
  | none => d

/-- ASCII upper-casing of one character, as in `String.prototype.toUpperCase`
restricted to the ASCII range (token ids in the feed are ASCII). -/
def upperChar (c : Char) : Char := c.toUpper

/-- ASCII upper-casing of a string. -/
def upperStr (s : String) : String := ⟨s.data.map upperChar⟩

/-! ### Feed client (Swopus API client) -/

/-- `extractTokenSymbol(tokenId)`: `null` for a falsy id, otherwise the part of
the id before the first hyphen, upper-cased (`"DVK-1AB2"` becomes `"DVK"`). -/
def extractTokenSymbol (tokenId : String) : Option String :=
  if tokenId = "" then none
  else some (upperStr ⟨tokenId.data.takeWhile (fun ch => ch ≠ '-')⟩)

/-- One entry of the feed's `tokens` object. -/
structure TokenInfo where
  precision : Option Nat
  logoUrlProxy : Option String
deriving DecidableEq

/-- One entry of the feed's `pairs` array.  A reserve is `none` when the field
is absent or unparsable; a present numeric string is modelled as its value. -/
structure RawPair where
  token0_id : String
  token1_id : String
  pair_id : Nat
  reserve0 : Option Int
  reserve1 : Option Int
deriving DecidableEq

/-- The parsed body of the feed endpoint. -/
structure FeedData where
  tokens : List (String × TokenInfo)
  pairs : List RawPair
deriving DecidableEq

/-- `filterValidPairs(pairs, minReserve)`: keep the pairs whose two reserves
(each defaulting to 0 when absent, as in `parseFloat(pair.reserve0 || 0)`) are
both at least `minReserve`. -/
def filterValidPairs (pairs : List RawPair) (minReserve : Int) : List RawPair :=
  pairs.filter (fun p => decide (p.reserve0.getD 0 ≥ minReserve) &&
    decide (p.reserve1.getD 0 ≥ minReserve))

/-- `buildLogoUrl(logoPath)`: `null` for a falsy path, the path itself when it
is already absolute, otherwise the feed base URL followed by the path. -/
def buildLogoUrl (base : String) (logoPath : Option String) : Option String :=
  match logoPath with
  | none => none
  | some p =>
    if p = "" then none
    else if "http".data.isPrefixOf p.data then some p
    else some (base ++ p)

/-! ### Catalog store rows -/

/-- A row of the `tokens` table. -/
structure TokenRow where
  id : Nat
  symbol : String
  name : String
  logo_url : Option String
  decimals : Nat
  contract_address : String
  is_active : Bool
  admin_disabled : Bool
deriving DecidableEq

/-- A row of the `gateways` table (the columns the core reads). -/
structure GatewayRow where
  id : Nat
  name : String
  slug : String
  is_active : Bool
  admin_disabled : Bool
deriving DecidableEq

/-- A row of the `trading_pairs` table. -/
structure TradingPairRow where
  id : Nat
  token_from_id : Nat
  token_to_id : Nat
  gateway_id : Nat
  pair_id_external : Option String
  reserve0 : Int
  reserve1 : Int
  is_active : Bool
  admin_disabled : Bool
  last_sync_at : Option Int
deriving DecidableEq

/-- The catalog side of the relational store.  `nextId` models the SERIAL
sequence feeding freshly inserted rows. -/
structure Catalog where
  tokens : List TokenRow
  gateways : List GatewayRow
  pairs : List TradingPairRow
  nextId : Nat
deriving DecidableEq

/-! ### Catalog store operations (models/syncQueries.js) -/

/-- The argument object of `upsertToken`. -/
structure TokenData where
  symbol : String
  name : Option String
  logo_url : Option String
  decimals : Option Nat
  contract_address : Option String
deriving DecidableEq

/-- The row `upsertToken` reports back (`RETURNING id` plus the explicit
`skipped: true` of the admin-disabled branch). -/
structure UpsertTokenResult where
  id : Nat
  skipped : Bool
deriving DecidableEq

/-- `upsertToken(pool, tokenData)`.  The row is looked up by
`contract_address || symbol`; an existing admin-disabled row is returned
untouched with `skipped: true`; otherwise the INSERT .. ON CONFLICT
(contract_address) DO UPDATE runs, refreshing `logo_url`/`decimals` and forcing
`is_active = true` unless the row is admin-disabled.  A plain INSERT that would
violate the spec-modelled UNIQUE(symbol) constraint raises a store error,
modelled as `none`. -/
def tokenKey (td : TokenData) : String :=
  jsOrStr td.contract_address td.symbol

/-- The per-row effect of the token upsert's ON CONFLICT DO UPDATE clause. -/
def tokenUpdateFn (td : TokenData) (t : TokenRow) : TokenRow :=
  if t.contract_address = tokenKey td then
    { t with
      logo_url := td.logo_url.or t.logo_url
      decimals := jsOrNat td.decimals 6
      is_active := if t.admin_disabled then t.is_active else true }
  else t

/-- The row the token upsert's INSERT branch creates. -/
def tokenInsertRow (c : Catalog) (td : TokenData) : TokenRow :=
  { id := c.nextId
    symbol := td.symbol
    name := jsOrStr td.name td.symbol
    logo_url := td.logo_url
    decimals := jsOrNat td.decimals 6
    contract_address := tokenKey td
    is_active := true
    admin_disabled := false }

def upsertToken (c : Catalog) (td : TokenData) :
    Option (Catalog × UpsertTokenResult) :=
  match c.tokens.find? (fun r => r.contract_address = tokenKey td) with
  | some r =>
    if r.admin_disabled then some (c, ⟨r.id, true⟩)
    else
      some ({ c with tokens := c.tokens.map (tokenUpdateFn td) },
        ⟨r.id, false⟩)
  | none =>
    if c.tokens.any (fun r => r.symbol = td.symbol) then none
    else
      some ({ c with
        tokens := c.tokens ++ [tokenInsertRow c td]
        nextId := c.nextId + 1 }, ⟨c.nextId, false⟩)

/-- `getTokenBySymbol(pool, symbol)`: first row with
`UPPER(symbol) = UPPER($1)`. -/
def getTokenBySymbol (c : Catalog) (symbol : String) : Option TokenRow :=
  c.tokens.find? (fun r => upperStr r.symbol = upperStr symbol)

/-- `getGatewayBySlug(pool, slug)`. -/
def getGatewayBySlug (c : Catalog) (slug : String) : Option GatewayRow :=
  c.gateways.find? (fun g => g.slug = slug)

/-- The argument object of `upsertTradingPairRespectingAdmin`. -/
structure PairData where
  token_from_id : Nat
  token_to_id : Nat
  gateway_id : Nat
  pair_id_external : Option String
  reserve0 : Int
  reserve1 : Int
deriving DecidableEq

/-- The natural-key match of the trading-pair upsert's WHERE / ON CONFLICT
clause. -/
def pairKeyMatches (pd : PairData) (r : TradingPairRow) : Bool :=
  r.token_from_id = pd.token_from_id && r.token_to_id = pd.token_to_id &&
    r.gateway_id = pd.gateway_id

/-- What `upsertTradingPairRespectingAdmin` reports back. -/
structure UpsertPairResult where
  id : Nat
  skipped : Bool
deriving DecidableEq

/-- The per-row effect of the admin-disabled branch's UPDATE (matched by id):
reserves, `last_sync_at` and `pair_id_external` only. -/
def pairAdminUpdateFn (pd : PairData) (rid : Nat) (now : Int)
    (q : TradingPairRow) : TradingPairRow :=
  if q.id = rid then
    { q with
      reserve0 := pd.reserve0
      reserve1 := pd.reserve1
      last_sync_at := some now
      pair_id_external := pd.pair_id_external }
  else q

/-- The per-row effect of the pair upsert's ON CONFLICT DO UPDATE clause. -/
def pairUpdateFn (pd : PairData) (now : Int) (q : TradingPairRow) :
    TradingPairRow :=
  if pairKeyMatches pd q then
    { q with
      reserve0 := pd.reserve0
      reserve1 := pd.reserve1
      is_active := if q.admin_disabled then q.is_active else true
      last_sync_at := some now
      pair_id_external := pd.pair_id_external.or q.pair_id_external }
  else q

/-- The row the pair upsert's INSERT branch creates. -/
def pairInsertRow (c : Catalog) (pd : PairData) (now : Int) : TradingPairRow :=
  { id := c.nextId
    token_from_id := pd.token_from_id
    token_to_id := pd.token_to_id
    gateway_id := pd.gateway_id
    pair_id_external := pd.pair_id_external
    reserve0 := pd.reserve0
    reserve1 := pd.reserve1
    is_active := true
    admin_disabled := false
    last_sync_at := some now }

/-- `upsertTradingPairRespectingAdmin(pool, pairData)`.  An existing
admin-disabled row only gets its reserves, `last_sync_at` and
`pair_id_external` refreshed (`is_active` untouched) and is reported
`skipped: true`; otherwise the INSERT .. ON CONFLICT (token_from_id,
token_to_id, gateway_id) DO UPDATE runs, forcing `is_active = true` unless the
row is admin-disabled. -/
def upsertTradingPairRespectingAdmin (c : Catalog) (pd : PairData)
    (now : Int) : Catalog × UpsertPairResult :=
  match c.pairs.find? (pairKeyMatches pd) with
  | some r =>
    if r.admin_disabled then
      ({ c with pairs := c.pairs.map (pairAdminUpdateFn pd r.id now) },
        ⟨r.id, true⟩)
    else
      ({ c with pairs := c.pairs.map (pairUpdateFn pd now) }, ⟨r.id, false⟩)
  | none =>
    ({ c with
      pairs := c.pairs ++ [pairInsertRow c pd now]
      nextId := c.nextId + 1 }, ⟨c.nextId, false⟩)

/-- What `deactivateStalePairsRespectingAdmin` reports back.  The early return
of the empty-keep-list guard carries no `ids` field, hence the Option. -/
structure DeactivateResult where
  count : Nat
  ids : Option (List Nat)
deriving DecidableEq

/-- The WHERE clause of the stale-pair UPDATE: same gateway, id not kept,
currently active, not admin-disabled. -/
def staleCondition (gatewayId : Nat) (keepIds : List Nat)
    (r : TradingPairRow) : Bool :=
  r.gateway_id = gatewayId && !(keepIds.contains r.id) && r.is_active &&
    !r.admin_disabled

/-- The per-row effect of the stale-pair UPDATE. -/
def deactFn (gatewayId : Nat) (keepIds : List Nat) (r : TradingPairRow) :
    TradingPairRow :=
  if staleCondition gatewayId keepIds r then { r with is_active := false }
  else r

/-- `deactivateStalePairsRespectingAdmin(pool, gatewayId, updatedPairIds)`.
With an empty id list the function returns `count: 0` without running any SQL;
otherwise it sets `is_active = false` on every row matched by
`staleCondition` and returns their count and ids. -/
def deactivateStalePairsRespectingAdmin (c : Catalog) (gatewayId : Nat)
    (updatedPairIds : List Nat) : Catalog × DeactivateResult :=
  if updatedPairIds.isEmpty then (c, ⟨0, none⟩)
  else
    let affected := c.pairs.filter (staleCondition gatewayId updatedPairIds)
    ({ c with pairs := c.pairs.map (deactFn gatewayId updatedPairIds) },
     ⟨affected.length, some (affected.map TradingPairRow.id)⟩)

/-! ### Reconciliation-pass micro-operations, for the override invariant -/

/-- One store write of a reconciliation pass, as named by the spec's invariant:
a token upsert, a directed-pair upsert, or a stale-pair deactivation. -/
inductive SyncOp where
  | upTok (td : TokenData)
  | upPair (pd : PairData) (now : Int)
  | deactStale (gatewayId : Nat) (keepIds : List Nat)
deriving DecidableEq

/-- Apply one reconciliation operation to the catalog (a failed token upsert
commits nothing). -/
def applySyncOp (c : Catalog) (op : SyncOp) : Catalog :=
  match op with
  | .upTok td =>
    match upsertToken c td with
    | some (c', _) => c'
    | none => c
  | .upPair pd now => (upsertTradingPairRespectingAdmin c pd now).1
  | .deactStale g keep => (deactivateStalePairsRespectingAdmin c g keep).1

/-- Apply a sequence of reconciliation operations left to right. -/
def applySyncOps (c : Catalog) (ops : List SyncOp) : Catalog :=
  ops.foldl applySyncOp c

/-- An admin-disabled token row survives with its `is_active` value and its
override flag intact. -/
def tokensFrozen (c c' : Catalog) : Prop :=
  ∀ r ∈ c.tokens, r.admin_disabled = true →
    ∃ r' ∈ c'.tokens, r'.id = r.id ∧ r'.admin_disabled = true ∧
      r'.is_active = r.is_active

/-- An admin-disabled trading-pair row survives with its `is_active` value and
its override flag intact. -/
def pairsFrozen (c c' : Catalog) : Prop :=
  ∀ r ∈ c.pairs, r.admin_disabled = true →
    ∃ r' ∈ c'.pairs, r'.id = r.id ∧ r'.admin_disabled = true ∧
      r'.is_active = r.is_active

/-- Concrete catalog for the C1 witness: one admin-disabled inactive token and
one admin-disabled active pair. -/
def catalogC1 : Catalog :=
  { tokens := [⟨7, "SCAM", "SCAM", none, 6, "SCAM-XYZ", false, true⟩]
    gateways := [⟨1, "Swopus", "swopus", true, false⟩]
    pairs := [⟨9, 7, 8, 1, some "12", 5, 5, true, true, none⟩]
    nextId := 20 }

/-- Concrete operation sequence for the C1 witness: it targets the disabled
rows directly and also runs a stale-pair deactivation that does not keep
them. -/
def opsC1 : List SyncOp :=
  [.upTok ⟨"SCAM", some "SCAM", none, some 6, some "SCAM-XYZ"⟩,
   .upPair ⟨7, 8, 1, some "12", 40, 50⟩ 1000,
   .deactStale 1 [3],
   .upTok ⟨"SCAM", some "SCAM", none, some 8, some "SCAM-XYZ"⟩]

/-- Concrete catalog for the C5 counterexample: a single active,
non-admin-disabled pair of gateway 1. -/
def catalogC5 : Catalog :=
  { tokens := []
    gateways := [⟨1, "Swopus", "swopus", true, false⟩]
    pairs := [⟨1, 10, 11, 1, none, 5, 5, true, false, none⟩]
    nextId := 2 }

/-! ### Reconciliation pass (workers/syncWorker.js) -/

/-- The per-pass symbol cache `tokenCache`.  Assignment prepends, so
`List.lookup` sees the newest binding, matching JS object assignment. -/
def Cache := List (String × Nat)

/-- `tokenCache[symbol]` as the loop reads it: `none` when the key is absent or
its value is falsy (id 0). -/
def cacheTruthy (cache : Cache) (sym : String) : Option Nat :=
  match List.lookup sym cache with
  | some n => if n = 0 then none else some n
  | none => none

/-- `tokenCache[symbol] = id`. -/
def cacheSet (cache : Cache) (sym : String) (id : Nat) : Cache :=
  (sym, id) :: cache

/-- One iteration of the token loop of `syncSwopus` (step 4 of the pass):
derive the symbol, skip falsy or already-cached symbols, upsert the token, and
on a store error fall back to a symbol lookup of a pre-existing row. -/
def tokStep (base : String) (acc : Catalog × Cache)
    (entry : String × TokenInfo) : Catalog × Cache :=
  match extractTokenSymbol entry.1 with
  | none => acc
  | some symbol =>
    if symbol = "" then acc
    else
      match cacheTruthy acc.2 symbol with
      | some _ => acc
      | none =>
        match upsertToken acc.1
          { symbol := symbol
            name := some symbol
            logo_url := buildLogoUrl base entry.2.logoUrlProxy
            decimals := some (jsOrNat entry.2.precision 6)
            contract_address := some entry.1 } with
        | some (c', res) => (c', cacheSet acc.2 symbol res.id)
        | none =>
          match getTokenBySymbol acc.1 symbol with
          | some row => (acc.1, cacheSet acc.2 symbol row.id)
          | none => acc

/-- The token loop of `syncSwopus`, folded over the feed's token entries. -/
def tokenPhase (base : String) (c : Catalog)
    (toks : List (String × TokenInfo)) : Catalog × Cache :=
  toks.foldl (tokStep base) (c, [])

/-- `tokenCache[extractTokenSymbol(tid)]` as the pair loop reads it (a falsy
symbol looks up the property `""`/`null`, which is never truthy). -/
def resolveTokenId (cache : Cache) (tid : String) : Option Nat :=
  match extractTokenSymbol tid with
  | none => none
  | some sym => cacheTruthy cache sym

/-- The two directed upsert calls the pair loop issues for one valid feed pair,
in order: token0 to token1 with (reserve0, reserve1), then token1 to token0
with the reserves swapped, both under the same gateway and stringified external
pair id.  No call is issued when either endpoint fails to resolve. -/
def upsertCallsForPair (cache : Cache) (gatewayId : Nat) (p : RawPair) :
    List PairData :=
  match resolveTokenId cache p.token0_id, resolveTokenId cache p.token1_id with
  | some a, some b =>
    [⟨a, b, gatewayId, some (toString p.pair_id), p.reserve0.getD 0,
      p.reserve1.getD 0⟩,
     ⟨b, a, gatewayId, some (toString p.pair_id), p.reserve1.getD 0,
      p.reserve0.getD 0⟩]
  | _, _ => []

/-- The running state of the pair loop: the catalog plus the
`updatedPairIds` / `pairsUpdated` / `pairsSkipped` accumulators, and the trace
of upsert calls issued so far. -/
structure PairLoopState where
  cat : Catalog
  updatedPairIds : List Nat
  pairsUpdated : Nat
  pairsSkipped : Nat
  calls : List PairData
deriving DecidableEq

/-- Issue one directed upsert and record its outcome, as the body of the pair
loop does after each of its two calls. -/
def pairUpsertStep (now : Int) (st : PairLoopState) (pd : PairData) :
    PairLoopState :=
  match upsertTradingPairRespectingAdmin st.cat pd now with
  | (c', res) =>
    if res.skipped then
      { st with
        cat := c'
        pairsSkipped := st.pairsSkipped + 1
        calls := st.calls ++ [pd] }
    else
      { st with
        cat := c'
        updatedPairIds := st.updatedPairIds ++ [res.id]
        pairsUpdated := st.pairsUpdated + 1
        calls := st.calls ++ [pd] }

/-- One iteration of the pair loop (step 5 of the pass).  The try/catch around
the two upserts never fires in the model because the embedded upsert is total
(the foreign keys come from the symbol cache). -/
def pairStep (cache : Cache) (gatewayId : Nat) (now : Int)
    (st : PairLoopState) (p : RawPair) : PairLoopState :=
  (upsertCallsForPair cache gatewayId p).foldl (pairUpsertStep now) st

/-- The pair loop of `syncSwopus`, folded over the valid filtered pairs. -/
def pairPhase (cache : Cache) (gatewayId : Nat) (now : Int) (c : Catalog)
    (validPairs : List RawPair) : PairLoopState :=
  validPairs.foldl (pairStep cache gatewayId now)
    ⟨c, [], 0, 0, []⟩

/-- The value `syncSwopus` resolves with (the `elapsed` wall-clock string is
not modelled). -/
inductive SyncResult where
  | skipped (reason : String)
  | completed (pairsUpdated pairsSkipped pairsDeactivated activePairs : Nat)
  | failed (error : String)
deriving DecidableEq

/-- The body of `syncSwopus` between acquiring and releasing the single-flight
flag: gateway lookup (a missing gateway throws into the catch, which reports a
failure result), the admin-disabled skip, the feed fetch (`Except.error` is a
thrown `FeedUnavailable`), the token loop, the pair loop, stale-pair
deactivation, and the statistics. -/
def syncBody (c : Catalog) (feed : Except String FeedData) (minReserve : Int)
    (base : String) (now : Int) : Catalog × SyncResult :=
  match getGatewayBySlug c "swopus" with
  | none => (c, .failed "Gateway Swopus no encontrado en BD")
  | some gateway =>
    if gateway.admin_disabled then (c, .skipped "gateway_disabled")
    else
      match feed with
      | .error e => (c, .failed e)
      | .ok data =>
        let validPairs := filterValidPairs data.pairs minReserve
        let tok := tokenPhase base c data.tokens
        let L := pairPhase tok.2 gateway.id now tok.1 validPairs
        let deact := deactivateStalePairsRespectingAdmin L.cat gateway.id
          L.updatedPairIds
        let activePairs := (deact.1.pairs.filter (fun r =>
          r.gateway_id = gateway.id && r.is_active)).length
        (deact.1, .completed L.pairsUpdated L.pairsSkipped deact.2.count
          activePairs)

/-- The module state of the sync worker: the store it writes through and the
module-level `isRunning` single-flight flag. -/
structure SyncState where
  catalog : Catalog
  isRunning : Bool
deriving DecidableEq

/-- `syncSwopus()`: when a pass is already in flight the call returns
`undefined` (modelled `none`) without touching the flag; otherwise the flag is
raised, the body runs, and the `finally` clause lowers the flag whatever the
outcome. -/
def syncSwopus (st : SyncState) (feed : Except String FeedData)
    (minReserve : Int) (base : String) (now : Int) :
    SyncState × Option SyncResult :=
  if st.isRunning then (st, none)
  else
    let out := syncBody st.catalog feed minReserve base now
    (⟨out.1, false⟩, some out.2)

/-! ### Calendar arithmetic for the scheduler -/

/-- Days from civil date (proleptic Gregorian), Hinnant's algorithm; month is
1-based. -/
def daysFromCivil (y m d : Int) : Int :=
  let y' := if m ≤ 2 then y - 1 else y
  let era := y'.fdiv 400
  let yoe := y' - era * 400
  let mp := m + (if m > 2 then -3 else 9)
  let doy := (153 * mp + 2) / 5 + d - 1
  let doe := yoe * 365 + yoe / 4 - yoe / 100 + doy
  era * 146097 + doe - 719468

/-- Civil date from days since the epoch, Hinnant's algorithm; month is
1-based. -/
def civilFromDays (z : Int) : Int × Int × Int :=
  let z' := z + 719468
  let era := z'.fdiv 146097
  let doe := z' - era * 146097
  let yoe := (doe - doe / 1460 + doe / 36524 - doe / 146096) / 365
  let y := yoe + era * 400
  let doy := doe - (365 * yoe + yoe / 4 - yoe / 100)
  let mp := (5 * doy + 2) / 153
  let d := doy - (153 * mp + 2) / 5 + 1
  let m := mp + (if mp < 10 then 3 else -9)
  (if m ≤ 2 then y + 1 else y, m, d)

/-- `d.setMonth(d.getMonth() + 1)` on an epoch-seconds timestamp: keep the time
of day, move to the same day number of the next month, letting an overflowing
day number normalize forward exactly as the JS Date `makeDay` computation
does. -/
def setMonthPlusOne (t : Int) : Int :=
  let z := t.fdiv 86400
  let secs := t - z * 86400
  let ymd := civilFromDays z
  let y := ymd.1
  let m := ymd.2.1
  let d := ymd.2.2
  let y' := if m = 12 then y + 1 else y
  let m' := if m = 12 then 1 else m + 1
  (daysFromCivil y' m' 1 + (d - 1)) * 86400 + secs

/-- `calculateNextExecution(frequency)` of server.js, applied to the current
wall-clock time `now`: one hour, day, week or JS calendar month ahead, with the
switch's default of one day for any other string. -/
def calculateNextExecution (frequency : String) (now : Int) : Int :=
  match frequency with
  | "hourly" => now + 3600
  | "daily" => now + 86400
  | "weekly" => now + 7 * 86400
  | "monthly" => setMonthPlusOne now
  | _ => now + 86400

/-! ### Order store and scheduler (server.js) -/

/-- A row of the `dca_orders` table. -/
structure DcaOrder where
  id : Nat
  user_id : Nat
  token_from : String
  token_to : String
  amount : Int
  frequency : String
  next_execution : Int
  is_active : Bool
  updated_at : Int
deriving DecidableEq

/-- A row of the `transactions` table. -/
structure TransactionRow where
  dca_order_id : Option Nat
  user_id : Nat
  tx_hash : Option String
  amount : Int
  token_from : String
  token_to : String
  status : String
  gas_used : Option Int
  error_message : Option String
  executed_at : Int
deriving DecidableEq

/-- The order side of the relational store. -/
structure OrderDB where
  orders : List DcaOrder
  txns : List TransactionRow
deriving DecidableEq

/-- The CHECK constraint of `transactions.status` in scripts/init-db.sql. -/
def allowedTxnStatus (s : String) : Bool :=
  s = "pending" || s = "completed" || s = "failed"

/-- An INSERT into `transactions`: rejected with a constraint violation when
the status is outside the schema's CHECK list. -/
def insertTransaction (db : OrderDB) (t : TransactionRow) :
    Except String OrderDB :=
  if allowedTxnStatus t.status then .ok { db with txns := db.txns ++ [t] }
  else .error "transactions_status_check violation"

/-- The UPDATE of `dca_orders.next_execution` after a successful execution. -/
def updateNextExecution (db : OrderDB) (orderId : Nat) (next now : Int) :
    OrderDB :=
  { db with orders := db.orders.map (fun o =>
      if o.id = orderId then
        { o with next_execution := next, updated_at := now }
      else o) }

/-- The per-order environment of one `executeDCAOrder` call: the synthetic
transaction hash and gas figure, plus injected store failures for each of the
three queries the function can run (a `some` message makes that query throw
instead of committing). -/
structure ExecEnv where
  txHash : String
  gasUsed : Int
  insertFail : Option String
  updateFail : Option String
  failRecFail : Option String
deriving DecidableEq

/-- The `completed` transaction record the success path inserts. -/
def completedTxn (o : DcaOrder) (e : ExecEnv) (now : Int) : TransactionRow :=
  ⟨some o.id, o.user_id, some e.txHash, o.amount, o.token_from, o.token_to,
   "completed", some e.gasUsed, none, now⟩

/-- The `failed` transaction record the catch block inserts. -/
def failedTxn (o : DcaOrder) (msg : String) (now : Int) : TransactionRow :=
  ⟨some o.id, o.user_id, none, o.amount, o.token_from, o.token_to,
   "failed", none, some msg, now⟩

/-- Run one store query under the injected-failure model: an injected failure
throws without committing; otherwise the query itself runs and may still be
rejected by a constraint. -/
def runChecked (inj : Option String) (act : OrderDB → Except String OrderDB)
    (db : OrderDB) : OrderDB × Option String :=
  match inj with
  | some m => (db, some m)
  | none =>
    match act db with
    | .ok db' => (db', none)
    | .error m => (db, some m)

/-- The catch block of `executeDCAOrder`: insert a `failed` record carrying the
error message.  If that insert itself throws, the exception propagates to the
caller (the second component is the propagated error). -/
def execCatch (db : OrderDB) (o : DcaOrder) (now : Int) (e : ExecEnv)
    (msg : String) : OrderDB × Option String :=
  runChecked e.failRecFail (fun d => insertTransaction d (failedTxn o msg now))
    db

/-- `executeDCAOrder(order)`: insert a `completed` transaction with the
synthetic hash and gas, then set `next_execution` to
`calculateNextExecution(order.frequency)` computed from the current wall-clock
time.  Any throw inside the try block lands in the catch block, with all
previously committed writes kept (each query autocommits). -/
def executeDCAOrder (db : OrderDB) (o : DcaOrder) (now : Int) (e : ExecEnv) :
    OrderDB × Option String :=
  match runChecked e.insertFail
    (fun d => insertTransaction d (completedTxn o e now)) db with
  | (db1, some m) => execCatch db1 o now e m
  | (db1, none) =>
    match runChecked e.updateFail
      (fun d => .ok (updateNextExecution d o.id
        (calculateNextExecution o.frequency now) now)) db1 with
    | (db2, some m) => execCatch db2 o now e m
    | (db2, none) => (db2, none)

/-- Insert an order into a list sorted by ascending `next_execution`. -/
def insertByNextExecution (o : DcaOrder) : List DcaOrder → List DcaOrder
  | [] => [o]
  | x :: xs =>
    if o.next_execution ≤ x.next_execution then o :: x :: xs
    else x :: insertByNextExecution o xs

/-- Sort orders by ascending `next_execution` (the scheduler query's
ORDER BY). -/
def sortByNextExecution : List DcaOrder → List DcaOrder
  | [] => []
  | x :: xs => insertByNextExecution x (sortByNextExecution xs)

/-- The scheduler's selection query: active orders due at `now`, oldest due
first, at most 10. -/
def dueOrders (db : OrderDB) (now : Int) : List DcaOrder :=
  (sortByNextExecution (db.orders.filter (fun o =>
    o.is_active && decide (o.next_execution ≤ now)))).take 10

/-- The `for` loop of `checkAndExecuteDCA` with the surrounding try/catch of
the tick: orders run sequentially, and an exception propagating out of
`executeDCAOrder` lands in the tick-level catch, abandoning the rest of the
batch. -/
def execLoop (now : Int) : OrderDB → List (DcaOrder × ExecEnv) → OrderDB
  | db, [] => db
  | db, (o, e) :: rest =>
    match executeDCAOrder db o now e with
    | (db', none) => execLoop now db' rest
    | (db', some _) => db'

/-- `checkAndExecuteDCA()`: select the due batch and execute it sequentially;
`envs i` supplies the environment of the i-th selected order. -/
def checkAndExecuteDCA (db : OrderDB) (now : Int) (envs : Nat → ExecEnv) :
    OrderDB :=
  let due := dueOrders db now
  execLoop now db (due.enum.map (fun p => (p.2, envs p.1)))

/-! ### Cancellation route (DELETE /api/dca/orders/:order_id) -/

/-- What the cancellation route responds with. -/
inductive CancelOutcome where
  | notFound
  | ok (fee refund : Option String)
  | serverError (msg : String)
deriving DecidableEq

/-- The cancellation handler: look the order up (404 when absent), set
`is_active = false`, then insert a `cancelled` transaction record whose
`error_message` carries the caller-supplied fee and refund figures.  A throw
from the insert lands in the route's catch (a 500 response), with the already
committed deactivation kept. -/
def cancelDcaOrder (db : OrderDB) (orderId : Nat)
    (fee_amount refund_amount : Option String) (now : Int) :
    OrderDB × CancelOutcome :=
  match db.orders.find? (fun o => o.id = orderId) with
  | none => (db, .notFound)
  | some o =>
    let db1 := { db with orders := db.orders.map (fun q =>
      if q.id = orderId then { q with is_active := false, updated_at := now }
      else q) }
    let msg := "Cancelación manual. Fee (1%): " ++ jsOrStr fee_amount "0" ++
      " " ++ o.token_from ++ ". Devolución: " ++
      jsOrStr refund_amount (toString o.amount) ++ " " ++ o.token_from
    match insertTransaction db1
      ⟨some o.id, o.user_id, none, o.amount, o.token_from, o.token_to,
       "cancelled", none, some msg, now⟩ with
    | .ok db2 => (db2, .ok fee_amount refund_amount)
    | .error m => (db1, .serverError m)

/-! ### Predicates and abbreviations used by the statements -/

/-- The natural key of a trading-pair row. -/
def rowKey (r : TradingPairRow) : Nat × Nat × Nat :=
  (r.token_from_id, r.token_to_id, r.gateway_id)

/-- The natural key targeted by a directed upsert. -/
def pdKey (pd : PairData) : Nat × Nat × Nat :=
  (pd.token_from_id, pd.token_to_id, pd.gateway_id)

/-- The spec-modelled composite unique index on
(token_from_id, token_to_id, gateway_id): natural keys are pairwise
distinct. -/
def pairKeysUnique (c : Catalog) : Prop :=
  (c.pairs.map rowKey).Nodup

/-- No trading-pair row carries the manual override flag. -/
def noAdminPairs (c : Catalog) : Prop :=
  ∀ r ∈ c.pairs, r.admin_disabled = false

/-- Token ids are SERIAL values, hence nonzero (id 0 would be falsy in the
JS symbol cache), and so is the next free id. -/
def tokenIdsNonZero (c : Catalog) : Prop :=
  (∀ r ∈ c.tokens, r.id ≠ 0) ∧ c.nextId ≠ 0

/-- The row a directed upsert leaves behind for its key when the row is not
admin-disabled: every column is forced by the upsert except the id. -/
def satRow (pd : PairData) (id : Nat) (now : Int) : TradingPairRow :=
  { id := id
    token_from_id := pd.token_from_id
    token_to_id := pd.token_to_id
    gateway_id := pd.gateway_id
    pair_id_external := pd.pair_id_external
    reserve0 := pd.reserve0
    reserve1 := pd.reserve1
    is_active := true
    admin_disabled := false
    last_sync_at := some now }

/-- The directed upserts one sync pass issues for a feed. -/
def syncTrace (cache : Cache) (gatewayId : Nat) (validPairs : List RawPair) :
    List PairData :=
  validPairs.flatMap (upsertCallsForPair cache gatewayId)

/-- How many transaction records reference a given order. -/
def countOrderTxns (db : OrderDB) (orderId : Nat) : Nat :=
  (db.txns.filter (fun t => t.dca_order_id = some orderId)).length

/-- The `tokenData` object the token loop passes to `upsertToken` for one feed
entry, once the derived symbol is known. -/
def tokTd (base : String) (e : String × TokenInfo) (symbol : String) :
    TokenData :=
  { symbol := symbol
    name := some symbol
    logo_url := buildLogoUrl base e.2.logoUrlProxy
    decimals := some (jsOrNat e.2.precision 6)
    contract_address := some e.1 }

/-- The columns of a token row that no reconciliation write ever changes:
id, symbol, contract address and the admin override flag. -/
def tokenSkel (t : TokenRow) : Nat × String × String × Bool :=
  (t.id, t.symbol, t.contract_address, t.admin_disabled)

/-! ### Concrete instances for witnesses and counterexamples -/

/-- C2 counterexample: a due daily order. -/
def orderC2 : DcaOrder := ⟨1, 1, "KLV", "KFI", 50, "daily", 0, true, 0⟩

/-- C2 counterexample: the store holding that order. -/
def dbC2 : OrderDB := ⟨[orderC2], []⟩

/-- C2 counterexample: the execution attempt throws, recording the failure
succeeds. -/
def envC2 : ExecEnv := ⟨"h1", 3, some "boom", none, none⟩

/-- C3 witness: a catalog whose swopus gateway is admin-disabled. -/
def catalogC3 : Catalog :=
  { tokens := []
    gateways := [⟨1, "Swopus", "swopus", false, true⟩]
    pairs := [⟨1, 10, 11, 1, none, 5, 5, true, false, none⟩]
    nextId := 2 }

/-- C3 witness: a nonempty feed the skipped pass must ignore. -/
def feedC3 : FeedData :=
  { tokens := [("KLV", ⟨some 6, none⟩), ("KFI", ⟨some 6, none⟩)]
    pairs := [⟨"KLV", "KFI", 3, some 2000000, some 3000000⟩] }

/-- C4 witness: a symbol cache resolving KLV and KFI. -/
def cacheC4 : Cache := [("KLV", 1), ("KFI", 2)]

/-- C4 witness: one valid feed pair. -/
def rawPairC4 : RawPair := ⟨"KLV", "KFI-3C", 3, some 2000000, some 3000000⟩

/-- C4 witness: a catalog with the two tokens of the pair. -/
def catalogC4 : Catalog :=
  { tokens := [⟨1, "KLV", "KLV", none, 6, "KLV", true, false⟩,
               ⟨2, "KFI", "KFI", none, 6, "KFI-3C", true, false⟩]
    gateways := [⟨1, "Swopus", "swopus", true, false⟩]
    pairs := []
    nextId := 3 }

/-- C6: an initially empty catalog with an enabled swopus gateway. -/
def catalogC6 : Catalog :=
  { tokens := []
    gateways := [⟨1, "Swopus", "swopus", true, false⟩]
    pairs := []
    nextId := 1 }

/-- C6: a feed of two tokens and a single liquid pair. -/
def feedC6 : FeedData :=
  { tokens := [("KLV", ⟨some 6, none⟩), ("KFI", ⟨some 6, none⟩)]
    pairs := [⟨"KLV", "KFI", 3, some 2000000, some 3000000⟩] }

/-- C7 counterexample: first due order. -/
def orderC7a : DcaOrder := ⟨1, 1, "KLV", "KFI", 50, "daily", 0, true, 0⟩

/-- C7 counterexample: second due order. -/
def orderC7b : DcaOrder := ⟨2, 1, "KLV", "KFI", 60, "daily", 1, true, 0⟩

/-- C7 counterexample: the store holding both orders. -/
def dbC7 : OrderDB := ⟨[orderC7a, orderC7b], []⟩

/-- C7 counterexample: order 1's store is down, including while recording the
failed outcome; order 2 would succeed. -/
def envsC7 : Nat → ExecEnv :=
  fun i => if i = 0 then ⟨"h1", 3, some "down", none, some "down"⟩
    else ⟨"h2", 3, none, none, none⟩

/-- C7 witness: per-order environments whose outcome recording succeeds, the
first execution attempt failing, the second succeeding. -/
def envsC7ok : Nat → ExecEnv :=
  fun i => if i = 0 then ⟨"h1", 3, some "down", none, none⟩
    else ⟨"h2", 3, none, none, none⟩

/-- C8: an order store holding one active order. -/
def dbC8 : OrderDB := ⟨[⟨1, 1, "KLV", "KFI", 50, "daily", 7, true, 0⟩], []⟩

/-- C9 witness: a due weekly order. -/
def orderC9 : DcaOrder := ⟨4, 2, "KLV", "KFI", 50, "weekly", 5, true, 0⟩

/-- C9 witness: the store holding that order. -/
def dbC9 : OrderDB := ⟨[orderC9], []⟩

/-- C9 witness: an execution whose store calls all succeed. -/
def envC9 : ExecEnv := ⟨"klv_tx", 2, none, none, none⟩

/-- C10: a minimal catalog with an enabled swopus gateway. -/
def catalogC10 : Catalog :=
  { tokens := []
    gateways := [⟨1, "Swopus", "swopus", true, false⟩]
    pairs := []
    nextId := 1 }

/-- C10 counterexample: an invocation that finds the single-flight flag
already raised. -/
def stC10 : SyncState := ⟨catalogC10, true⟩

/-! ### Supporting lemmas: the admin-override freeze (C1) -/

theorem tokensFrozen_refl (c : Catalog) : tokensFrozen c c :=
  fun r hr ha => ⟨r, hr, rfl, ha, rfl⟩

theorem pairsFrozen_refl (c : Catalog) : pairsFrozen c c :=
  fun r hr ha => ⟨r, hr, rfl, ha, rfl⟩

theorem tokensFrozen_trans {a b c : Catalog} (h1 : tokensFrozen a b)
    (h2 : tokensFrozen b c) : tokensFrozen a c := by
  intro r hr ha
  obtain ⟨r', hr', hid', ha', hact'⟩ := h1 r hr ha
  obtain ⟨r'', hr'', hid'', ha'', hact''⟩ := h2 r' hr' ha'
  exact ⟨r'', hr'', hid''.trans hid', ha'', hact''.trans hact'⟩

theorem pairsFrozen_trans {a b c : Catalog} (h1 : pairsFrozen a b)
    (h2 : pairsFrozen b c) : pairsFrozen a c := by
  intro r hr ha
  obtain ⟨r', hr', hid', ha', hact'⟩ := h1 r hr ha
  obtain ⟨r'', hr'', hid'', ha'', hact''⟩ := h2 r' hr' ha'
  exact ⟨r'', hr'', hid''.trans hid', ha'', hact''.trans hact'⟩

theorem tokensFrozen_of_eq {a b : Catalog} (h : b.tokens = a.tokens) :
    tokensFrozen a b := fun r hr ha => ⟨r, h ▸ hr, rfl, ha, rfl⟩

theorem pairsFrozen_of_eq {a b : Catalog} (h : b.pairs = a.pairs) :
    pairsFrozen a b := fun r hr ha => ⟨r, h ▸ hr, rfl, ha, rfl⟩

theorem upsertToken_frozen (c : Catalog) (td : TokenData) :
    tokensFrozen c (applySyncOp c (.upTok td)) ∧
      pairsFrozen c (applySyncOp c (.upTok td)) := by
  simp only [applySyncOp]
  unfold upsertToken
  split
  · rename_i x c' res heq
    split at heq
    · split at heq
      · simp only [Option.some.injEq, Prod.mk.injEq] at heq
        obtain ⟨h1, -⟩ := heq
        subst h1
        exact ⟨tokensFrozen_refl c, pairsFrozen_refl c⟩
      · simp only [Option.some.injEq, Prod.mk.injEq] at heq
        obtain ⟨h1, -⟩ := heq
        subst h1
        refine ⟨?_, pairsFrozen_of_eq rfl⟩
        intro r hr ha
        refine ⟨tokenUpdateFn td r, List.mem_map_of_mem _ hr, ?_, ?_, ?_⟩ <;>
          · unfold tokenUpdateFn
            by_cases hc : (r.contract_address = tokenKey td) <;> simp [hc, ha]
    · split at heq
      · exact absurd heq (by simp)
      · simp only [Option.some.injEq, Prod.mk.injEq] at heq
        obtain ⟨h1, -⟩ := heq
        subst h1
        refine ⟨?_, pairsFrozen_of_eq rfl⟩
        intro r hr ha
        exact ⟨r, List.mem_append_left _ hr, rfl, ha, rfl⟩
  · exact ⟨tokensFrozen_refl c, pairsFrozen_refl c⟩

theorem upsertPair_frozen (c : Catalog) (pd : PairData) (now : Int) :
    tokensFrozen c (applySyncOp c (.upPair pd now)) ∧
      pairsFrozen c (applySyncOp c (.upPair pd now)) := by
  simp only [applySyncOp]
  unfold upsertTradingPairRespectingAdmin
  split
  · rename_i r0 hf
    split
    · refine ⟨tokensFrozen_of_eq rfl, ?_⟩
      intro r hr ha
      refine ⟨pairAdminUpdateFn pd r0.id now r, List.mem_map_of_mem _ hr,
        ?_, ?_, ?_⟩ <;>
        · unfold pairAdminUpdateFn
          by_cases hc : (r.id = r0.id) <;> simp [hc, ha]
    · refine ⟨tokensFrozen_of_eq rfl, ?_⟩
      intro r hr ha
      refine ⟨pairUpdateFn pd now r, List.mem_map_of_mem _ hr, ?_, ?_, ?_⟩ <;>
        · unfold pairUpdateFn
          by_cases hc : (pairKeyMatches pd r = true) <;> simp [hc, ha]
  · refine ⟨tokensFrozen_of_eq rfl, ?_⟩
    intro r hr ha
    exact ⟨r, List.mem_append_left _ hr, rfl, ha, rfl⟩

theorem deactStale_frozen (c : Catalog) (g : Nat) (keep : List Nat) :
    tokensFrozen c (applySyncOp c (.deactStale g keep)) ∧
      pairsFrozen c (applySyncOp c (.deactStale g keep)) := by
  simp only [applySyncOp]
  unfold deactivateStalePairsRespectingAdmin
  by_cases he : keep.isEmpty = true
  · simp only [he, if_true]
    exact ⟨tokensFrozen_refl c, pairsFrozen_refl c⟩
  · simp only [he, if_false, Bool.false_eq_true]
    refine ⟨tokensFrozen_of_eq rfl, ?_⟩
    intro r hr ha
    have hc : staleCondition g keep r = false := by simp [staleCondition, ha]
    exact ⟨r, by
      refine List.mem_map.mpr ⟨r, hr, ?_⟩
      simp [deactFn, hc], rfl, ha, rfl⟩

theorem applySyncOp_frozen (c : Catalog) (op : SyncOp) :
    tokensFrozen c (applySyncOp c op) ∧ pairsFrozen c (applySyncOp c op) := by
  cases op with
  | upTok td => exact upsertToken_frozen c td
  | upPair pd now => exact upsertPair_frozen c pd now
  | deactStale g keep => exact deactStale_frozen c g keep

/-- C1: for every token row and every trading-pair row that carries
admin_disabled = true, running any number of reconciliation store operations
(upsertToken, upsertTradingPairRespectingAdmin,
deactivateStalePairsRespectingAdmin, in any order, with any arguments) leaves
that row in place with admin_disabled still set and its is_active value
unchanged. -/
theorem C1_admin_disabled_is_active_unchanged (c : Catalog)
    (ops : List SyncOp) :
    tokensFrozen c (applySyncOps c ops) ∧ pairsFrozen c (applySyncOps c ops) := by
  induction ops generalizing c with
  | nil => exact ⟨tokensFrozen_refl c, pairsFrozen_refl c⟩
  | cons op rest ih =>
    have hstep := applySyncOp_frozen c op
    have hrest := ih (applySyncOp c op)
    exact ⟨tokensFrozen_trans hstep.1 hrest.1,
      pairsFrozen_trans hstep.2 hrest.2⟩

/-- C1 witness: in a concrete catalog holding an admin-disabled inactive token
(id 7) and an admin-disabled active pair (id 9), a concrete operation sequence
that upserts both and runs a stale-pair deactivation leaves both rows' states
unchanged. -/
theorem C1_witness :
    (∃ r' ∈ (applySyncOps catalogC1 opsC1).tokens, r'.id = 7 ∧
      r'.admin_disabled = true ∧ r'.is_active = false) ∧
    (∃ r' ∈ (applySyncOps catalogC1 opsC1).pairs, r'.id = 9 ∧
      r'.admin_disabled = true ∧ r'.is_active = true) := by
  constructor
  · exact (C1_admin_disabled_is_active_unchanged catalogC1 opsC1).1
      ⟨7, "SCAM", "SCAM", none, 6, "SCAM-XYZ", false, true⟩ (by decide) (by decide)
  · exact (C1_admin_disabled_is_active_unchanged catalogC1 opsC1).2
      ⟨9, 7, 8, 1, some "12", 5, 5, true, true, none⟩ (by decide) (by decide)

/-! ### C5: stale-pair deactivation -/

/-- C5 counterexample: with an empty keepIds list the claim requires the
active, non-admin-disabled pair of gateway 1 (which is not in the list) to be
set inactive and reported, but `deactivateStalePairsRespectingAdmin` returns
early, writing nothing and reporting count 0: the claim's conclusion fails at
this input. -/
theorem C5_counterexample :
    (deactivateStalePairsRespectingAdmin catalogC5 1 []).1 = catalogC5 ∧
    (deactivateStalePairsRespectingAdmin catalogC5 1 []).2 = ⟨0, none⟩ ∧
    (∃ r ∈ catalogC5.pairs, r.gateway_id = 1 ∧ r.id ∉ ([] : List Nat) ∧
      r.admin_disabled = false ∧ r.is_active = true) ∧
    ¬ (∀ r ∈ (deactivateStalePairsRespectingAdmin catalogC5 1 []).1.pairs,
        (r.gateway_id = 1 ∧ r.id ∉ ([] : List Nat) ∧
          r.admin_disabled = false) → r.is_active = false) := by
  decide

/-- C5 as amended: for every NON-EMPTY keepIds list,
deactivateStalePairsRespectingAdmin sets is_active = false for exactly the
rows of the gateway that are not kept, currently active and not
admin-disabled, never writes admin-disabled rows, and returns the count and
ids of the affected rows; with an empty keepIds list the call is an explicit
no-op guard returning count 0 and no id list. -/
theorem C5_deactivateStale_characterization (c : Catalog) (g : Nat)
    (keep : List Nat) :
    (deactivateStalePairsRespectingAdmin c g keep).1.tokens = c.tokens ∧
    (deactivateStalePairsRespectingAdmin c g keep).1.gateways = c.gateways ∧
    (deactivateStalePairsRespectingAdmin c g keep).1.nextId = c.nextId ∧
    (deactivateStalePairsRespectingAdmin c g keep).1.pairs =
      c.pairs.map (fun r =>
        if keep.isEmpty = false ∧ staleCondition g keep r = true then
          { r with is_active := false }
        else r) ∧
    (∀ r ∈ c.pairs, r.admin_disabled = true →
      r ∈ (deactivateStalePairsRespectingAdmin c g keep).1.pairs) ∧
    (deactivateStalePairsRespectingAdmin c g keep).2.count =
      (if keep.isEmpty then 0
       else (c.pairs.filter (staleCondition g keep)).length) ∧
    (deactivateStalePairsRespectingAdmin c g keep).2.ids =
      (if keep.isEmpty then none
       else some ((c.pairs.filter (staleCondition g keep)).map
         TradingPairRow.id)) := by
  by_cases he : keep.isEmpty = true
  · have hres : deactivateStalePairsRespectingAdmin c g keep = (c, ⟨0, none⟩) := by
      unfold deactivateStalePairsRespectingAdmin
      rw [if_pos he]
    have hni : ∀ r : TradingPairRow,
        (if keep.isEmpty = false ∧ staleCondition g keep r = true then
          { r with is_active := false } else r) = r := by
      intro r
      rw [if_neg]
      rintro ⟨h1, -⟩
      rw [he] at h1
      cases h1
    rw [hres]
    refine ⟨rfl, rfl, rfl, ?_, fun r hr _ => hr, ?_, ?_⟩
    · exact ((List.map_congr_left (fun a _ => hni a)).trans
        (List.map_id c.pairs)).symm
    · rw [if_pos he]
    · rw [if_pos he]
  · have hfe : keep.isEmpty = false := by simpa using he
    have hres : deactivateStalePairsRespectingAdmin c g keep =
        ({ c with pairs := c.pairs.map (deactFn g keep) },
         ⟨(c.pairs.filter (staleCondition g keep)).length,
          some ((c.pairs.filter (staleCondition g keep)).map
            TradingPairRow.id)⟩) := by
      unfold deactivateStalePairsRespectingAdmin
      rw [if_neg he]
    rw [hres]
    refine ⟨rfl, rfl, rfl, ?_, ?_, ?_, ?_⟩
    · refine List.map_congr_left ?_
      intro a _
      by_cases hc : staleCondition g keep a = true <;> simp [deactFn, hc, hfe]
    · intro r hr ha
      refine List.mem_map.mpr ⟨r, hr, ?_⟩
      have hc : staleCondition g keep r = false := by simp [staleCondition, ha]
      simp [deactFn, hc]
    · rw [if_neg he]
    · rw [if_neg he]

/-! ### C3: disabled gateway skips the pass -/

/-- C3: when the single-flight flag is down and the gateway row looked up by
slug has admin_disabled = true, syncSwopus returns success with skipped = true
and reason "gateway_disabled", the store is unmodified, and the result is the
same for every feed value — the pass never consults the feed. -/
theorem C3_gateway_disabled_skips (st : SyncState) (gw : GatewayRow)
    (hrun : st.isRunning = false)
    (hgw : getGatewayBySlug st.catalog "swopus" = some gw)
    (hdis : gw.admin_disabled = true) (feed : Except String FeedData)
    (minReserve : Int) (base : String) (now : Int) :
    syncSwopus st feed minReserve base now =
      (st, some (.skipped "gateway_disabled")) := by
  obtain ⟨c, flag⟩ := st
  simp only at hrun hgw
  subst hrun
  simp [syncSwopus, syncBody, hgw, hdis]

/-- C3 witness: a concrete catalog whose swopus gateway is admin-disabled, run
with the flag down on a concrete feed. -/
theorem C3_witness :
    syncSwopus ⟨catalogC3, false⟩ (.ok feedC3) 1000000 "base" 5 =
      (⟨catalogC3, false⟩, some (.skipped "gateway_disabled")) :=
  C3_gateway_disabled_skips ⟨catalogC3, false⟩ ⟨1, "Swopus", "swopus", false,
    true⟩ rfl (by decide) rfl (.ok feedC3) 1000000 "base" 5

/-! ### C10: the single-flight flag after a run -/

/-- C10 counterexample: an invocation that finds the flag already raised (a
pass is in flight) returns with the module-level flag still true, not false as
the claim states for the "skip because already running" outcome. -/
theorem C10_counterexample :
    stC10.isRunning = true ∧
    syncSwopus stC10 (.ok ⟨[], []⟩) 1000000 "base" 0 = (stC10, none) ∧
    ¬ ((syncSwopus stC10 (.ok ⟨[], []⟩) 1000000 "base" 0).1.isRunning
        = false) := by
  decide

/-- C10 as amended: every invocation that actually enters a pass (the flag was
down at entry) leaves isRunning false on return, whatever the outcome —
completed pass, disabled-gateway skip, missing gateway, or feed failure; an
invocation skipped because a pass is in flight leaves the flag exactly as it
found it. -/
theorem C10_flag_false_after_entered_pass (st : SyncState)
    (feed : Except String FeedData) (minReserve : Int) (base : String)
    (now : Int) (h : st.isRunning = false) :
    (syncSwopus st feed minReserve base now).1.isRunning = false := by
  simp [syncSwopus, h]

/-- C10 witness: a pass aborted by a feed failure still lowers the flag. -/
theorem C10_witness :
    (syncSwopus ⟨catalogC10, false⟩ (.error "FeedUnavailable") 1000000 "base"
      0).1.isRunning = false :=
  C10_flag_false_after_entered_pass ⟨catalogC10, false⟩ (.error
    "FeedUnavailable") 1000000 "base" 0 rfl

/-! ### C8: cancellation (code bug: the cancelled record violates the schema) -/

/-- C8: at the failing input (an existing active order, id 1), the
cancellation route sets is_active = false, but its INSERT of the transaction
record with status 'cancelled' violates the transactions.status CHECK
constraint of scripts/init-db.sql, which only allows pending, completed and
failed, so no record is appended and the route answers with the 500 error
path; the claim's "successfully appends one 'cancelled' record" fails on this
schema. -/
theorem C8_cancelled_insert_violates_check :
    ((cancelDcaOrder dbC8 1 (some "0.5") (some "49.5") 9).1.orders.map
      (fun o => (o.id, o.is_active))) = [(1, false)] ∧
    (cancelDcaOrder dbC8 1 (some "0.5") (some "49.5") 9).1.txns = [] ∧
    (cancelDcaOrder dbC8 1 (some "0.5") (some "49.5") 9).2 =
      .serverError "transactions_status_check violation" ∧
    allowedTxnStatus "cancelled" = false := by
  decide

/-! ### C2: failed execution and next_execution -/

/-- C2 counterexample: a due daily order whose execution attempt fails gets
its 'failed' transaction record with the error message, but next_execution is
left at its old value 0 instead of the claimed
calculateNextExecution("daily", 100) = 86500: the claim's advance-on-failure
conclusion fails at this input. -/
theorem C2_counterexample :
    ((executeDCAOrder dbC2 orderC2 100 envC2).1.txns.map
      (fun t => (t.status, t.error_message))) = [("failed", some "boom")] ∧
    ((executeDCAOrder dbC2 orderC2 100 envC2).1.orders.map
      DcaOrder.next_execution) = [0] ∧
    calculateNextExecution "daily" 100 = 86500 ∧
    ¬ ((executeDCAOrder dbC2 orderC2 100 envC2).1.orders.map
      DcaOrder.next_execution = [86500]) := by
  decide

/-- C2 as amended: when the execution attempt throws and recording the
outcome succeeds, executeDCAOrder appends exactly one 'failed' transaction
record carrying the error message and leaves the orders table — in particular
next_execution — completely unchanged, so the order stays due for the next
tick; only the success path advances next_execution. -/
theorem C2_failure_keeps_next_execution (db : OrderDB) (o : DcaOrder)
    (now : Int) (e : ExecEnv) (m : String) (h1 : e.insertFail = some m)
    (h3 : e.failRecFail = none) :
    executeDCAOrder db o now e =
      ({ db with txns := db.txns ++ [failedTxn o m now] }, none) := by
  simp [executeDCAOrder, runChecked, h1, h3, execCatch, insertTransaction,
    failedTxn, allowedTxnStatus]

/-- C2 witness: the amended behavior at a concrete failing execution. -/
theorem C2_witness :
    executeDCAOrder dbC2 orderC2 100 envC2 =
      ({ dbC2 with txns := dbC2.txns ++ [failedTxn orderC2 "boom" 100] },
        none) :=
  C2_failure_keeps_next_execution dbC2 orderC2 100 envC2 "boom" rfl rfl

/-! ### C9: successful execution -/

/-- C9: when both store calls of the success path succeed, executeDCAOrder
appends exactly one transaction record — status 'completed', carrying the
synthetic transaction hash and gas figure — and sets the order's
next_execution to calculateNextExecution(frequency) evaluated at the current
wall-clock time `now` (one hour, day, week or JS calendar month after `now`,
by frequency), a value independent of the order's previous next_execution. -/
theorem C9_success_appends_completed_and_advances (db : OrderDB)
    (o : DcaOrder) (now : Int) (e : ExecEnv) (h1 : e.insertFail = none)
    (h2 : e.updateFail = none) :
    executeDCAOrder db o now e =
      ({ orders := db.orders.map (fun q =>
          if q.id = o.id then
            { q with
              next_execution := calculateNextExecution o.frequency now
              updated_at := now }
          else q)
         txns := db.txns ++ [completedTxn o e now] }, none) ∧
    (completedTxn o e now).status = "completed" ∧
    (completedTxn o e now).tx_hash = some e.txHash ∧
    (completedTxn o e now).gas_used = some e.gasUsed ∧
    (o.frequency = "hourly" →
      calculateNextExecution o.frequency now = now + 3600) ∧
    (o.frequency = "daily" →
      calculateNextExecution o.frequency now = now + 86400) ∧
    (o.frequency = "weekly" →
      calculateNextExecution o.frequency now = now + 7 * 86400) ∧
    (o.frequency = "monthly" →
      calculateNextExecution o.frequency now = setMonthPlusOne now) := by
  refine ⟨?_, rfl, rfl, rfl, ?_, ?_, ?_, ?_⟩
  · simp [executeDCAOrder, runChecked, h1, h2, insertTransaction,
      completedTxn, allowedTxnStatus, updateNextExecution]
  all_goals intro hf
  all_goals rw [hf]
  all_goals rfl

/-- C9 witness: a concrete weekly order executed at time 100 gets one
completed record and next_execution 100 + 7 days, ignoring its stale
next_execution of 5. -/
theorem C9_witness :
    executeDCAOrder dbC9 orderC9 100 envC9 =
      ({ orders := dbC9.orders.map (fun q =>
          if q.id = orderC9.id then
            { q with
              next_execution := calculateNextExecution orderC9.frequency 100
              updated_at := 100 }
          else q)
         txns := dbC9.txns ++ [completedTxn orderC9 envC9 100] }, none) ∧
    calculateNextExecution orderC9.frequency 100 = 100 + 7 * 86400 :=
  ⟨(C9_success_appends_completed_and_advances dbC9 orderC9 100 envC9 rfl
      rfl).1, by decide⟩

/-! ### C7: per-order isolation in one scheduler tick -/

theorem executeDCAOrder_txns_shape (db : OrderDB) (o : DcaOrder) (now : Int)
    (e : ExecEnv) :
    ∃ ts : List TransactionRow,
      (executeDCAOrder db o now e).1.txns = db.txns ++ ts ∧
      (e.failRecFail = none →
        (executeDCAOrder db o now e).2 = none ∧
        ∃ t ∈ ts, t.dca_order_id = some o.id) := by
  rcases h1 : e.insertFail with _ | m1
  · rcases h2 : e.updateFail with _ | m2
    · refine ⟨[completedTxn o e now], ?_, fun _ => ⟨?_, completedTxn o e now,
        List.mem_singleton_self _, rfl⟩⟩ <;>
        simp [executeDCAOrder, runChecked, h1, h2, insertTransaction,
          allowedTxnStatus, updateNextExecution, completedTxn]
    · rcases h3 : e.failRecFail with _ | m3
      · refine ⟨[completedTxn o e now, failedTxn o m2 now], ?_,
          fun _ => ⟨?_, failedTxn o m2 now, by simp, rfl⟩⟩ <;>
          simp [executeDCAOrder, runChecked, execCatch, h1, h2, h3,
            insertTransaction, allowedTxnStatus, updateNextExecution,
            completedTxn, failedTxn]
      · refine ⟨[completedTxn o e now], ?_, fun hcon => ?_⟩
        · simp [executeDCAOrder, runChecked, execCatch, h1, h2, h3,
            insertTransaction, allowedTxnStatus, updateNextExecution,
            completedTxn]
        · cases hcon
  · rcases h3 : e.failRecFail with _ | m3
    · refine ⟨[failedTxn o m1 now], ?_, fun _ => ⟨?_, failedTxn o m1 now,
        List.mem_singleton_self _, rfl⟩⟩ <;>
        simp [executeDCAOrder, runChecked, execCatch, h1, h3,
          insertTransaction, allowedTxnStatus, failedTxn]
    · refine ⟨[], ?_, fun hcon => ?_⟩
      · simp [executeDCAOrder, runChecked, execCatch, h1, h3]
      · cases hcon

theorem countOrderTxns_of_txns_append {db db' : OrderDB}
    {ts : List TransactionRow} (h : db'.txns = db.txns ++ ts) (oid : Nat) :
    countOrderTxns db' oid = countOrderTxns db oid +
      (ts.filter (fun t => t.dca_order_id = some oid)).length := by
  simp [countOrderTxns, h, List.filter_append]

theorem executeDCAOrder_count_mono (db : OrderDB) (o : DcaOrder) (now : Int)
    (e : ExecEnv) (oid : Nat) :
    countOrderTxns (executeDCAOrder db o now e).1 oid ≥
      countOrderTxns db oid := by
  obtain ⟨ts, hts, -⟩ := executeDCAOrder_txns_shape db o now e
  rw [countOrderTxns_of_txns_append hts]
  exact Nat.le_add_right _ _

theorem executeDCAOrder_count_incr (db : OrderDB) (o : DcaOrder) (now : Int)
    (e : ExecEnv) (h3 : e.failRecFail = none) :
    (executeDCAOrder db o now e).2 = none ∧
    countOrderTxns (executeDCAOrder db o now e).1 o.id ≥
      countOrderTxns db o.id + 1 := by
  obtain ⟨ts, hts, himp⟩ := executeDCAOrder_txns_shape db o now e
  obtain ⟨hnone, t, htm, hid⟩ := himp h3
  refine ⟨hnone, ?_⟩
  rw [countOrderTxns_of_txns_append hts]
  have hpos : 0 < (ts.filter (fun t => t.dca_order_id = some o.id)).length := by
    have hmemf : t ∈ ts.filter (fun t => t.dca_order_id = some o.id) :=
      List.mem_filter.mpr ⟨htm, by simp [hid]⟩
    exact List.length_pos.mpr (List.ne_nil_of_mem hmemf)
  omega

theorem execLoop_count_mono (now : Int) :
    ∀ (l : List (DcaOrder × ExecEnv)) (db : OrderDB) (oid : Nat),
      countOrderTxns (execLoop now db l) oid ≥ countOrderTxns db oid := by
  intro l
  induction l with
  | nil => intro db oid; exact Nat.le_refl _
  | cons pe rest ih =>
    intro db oid
    obtain ⟨o, e⟩ := pe
    unfold execLoop
    rcases hx : executeDCAOrder db o now e with ⟨db', th⟩
    have hmono : countOrderTxns db' oid ≥ countOrderTxns db oid := by
      have := executeDCAOrder_count_mono db o now e oid
      rw [hx] at this
      exact this
    cases th with
    | none => exact le_trans hmono (ih db' oid)
    | some m => exact hmono

theorem execLoop_each_attempted (now : Int) :
    ∀ (l : List (DcaOrder × ExecEnv)) (db : OrderDB),
      (∀ pe ∈ l, pe.2.failRecFail = none) →
      ∀ pe ∈ l, countOrderTxns (execLoop now db l) pe.1.id ≥
        countOrderTxns db pe.1.id + 1 := by
  intro l
  induction l with
  | nil => intro db _ pe hpe; cases hpe
  | cons hd rest ih =>
    intro db hall pe hpe
    obtain ⟨o, e⟩ := hd
    have h3 : e.failRecFail = none := hall (o, e) (List.mem_cons_self _ _)
    obtain ⟨hnone, hincr⟩ := executeDCAOrder_count_incr db o now e h3
    rcases hx : executeDCAOrder db o now e with ⟨db', th⟩
    rw [hx] at hnone hincr
    subst hnone
    have hloop : execLoop now db ((o, e) :: rest) = execLoop now db' rest := by
      show (match executeDCAOrder db o now e with
        | (db', none) => execLoop now db' rest
        | (db', some _) => db') = execLoop now db' rest
      rw [hx]
    rw [hloop]
    rcases List.mem_cons.mp hpe with hhd | hrest
    · subst hhd
      exact le_trans hincr (execLoop_count_mono now rest db' _)
    · have hmono : countOrderTxns db' pe.1.id ≥ countOrderTxns db pe.1.id := by
        have := executeDCAOrder_count_mono db o now e pe.1.id
        rw [hx] at this
        exact this
      have := ih db' (fun q hq => hall q (List.mem_cons_of_mem _ hq)) pe hrest
      omega

theorem exists_enumFrom_pair {α : Type} :
    ∀ (l : List α) (n : Nat) (x : α), x ∈ l → ∃ i, (i, x) ∈ l.enumFrom n := by
  intro l
  induction l with
  | nil => intro n x hx; cases hx
  | cons a rest ih =>
    intro n x hx
    rcases List.mem_cons.mp hx with rfl | hrest
    · exact ⟨n, List.mem_cons_self _ _⟩
    · obtain ⟨i, hi⟩ := ih (n + 1) x hrest
      exact ⟨i, List.mem_cons_of_mem _ hi⟩

/-- C7 counterexample: two due orders; processing order 1 raises an exception
because the store also fails while recording its failed outcome, and the
tick-level catch then abandons the batch: order 2 is never attempted — no
transaction row references it and its next_execution is untouched — contrary
to the claim that an exception anywhere in order N's processing cannot
prevent order N+1 from being attempted. -/
theorem C7_counterexample :
    dueOrders dbC7 100 = [orderC7a, orderC7b] ∧
    (checkAndExecuteDCA dbC7 100 envsC7).txns = [] ∧
    ((checkAndExecuteDCA dbC7 100 envsC7).orders.map
      (fun o => (o.id, o.next_execution))) = [(1, 0), (2, 1)] ∧
    ¬ (∃ t ∈ (checkAndExecuteDCA dbC7 100 envsC7).txns,
        t.dca_order_id = some 2) := by
  decide

/-- C7 as amended: failure isolation holds exactly when recording each order's
outcome succeeds.  If, for every selected order, the catch-block insert of the
failed record does not itself throw, then every order of the batch is
attempted — each one ends up with at least one new transaction record — even
when execution attempts and next_execution updates throw; a store failure
while recording an outcome, by contrast, propagates and aborts the remainder
of the batch (see the counterexample). -/
theorem C7_batch_isolation (db : OrderDB) (now : Int) :
    (∀ l : List (DcaOrder × ExecEnv), (∀ pe ∈ l, pe.2.failRecFail = none) →
      ∀ pe ∈ l, countOrderTxns (execLoop now db l) pe.1.id ≥
        countOrderTxns db pe.1.id + 1) ∧
    (∀ envs : Nat → ExecEnv, (∀ i, (envs i).failRecFail = none) →
      ∀ o ∈ dueOrders db now,
        countOrderTxns (checkAndExecuteDCA db now envs) o.id ≥
          countOrderTxns db o.id + 1) := by
  refine ⟨fun l => execLoop_each_attempted now l db, ?_⟩
  intro envs henv o ho
  obtain ⟨i, hi⟩ := exists_enumFrom_pair (dueOrders db now) 0 o ho
  have hmem : (o, envs i) ∈ (dueOrders db now).enum.map
      (fun p => (p.2, envs p.1)) := by
    refine List.mem_map.mpr ⟨(i, o), ?_, rfl⟩
    exact hi
  have := execLoop_each_attempted now
    ((dueOrders db now).enum.map (fun p => (p.2, envs p.1))) db
    (by
      intro pe hpe
      obtain ⟨p, -, rfl⟩ := List.mem_map.mp hpe
      exact henv p.1) (o, envs i) hmem
  exact this

/-- C7 witness: with recording always available, both due orders of the
concrete store get a new transaction record even though order 1's execution
attempt fails. -/
theorem C7_witness :
    countOrderTxns (checkAndExecuteDCA dbC7 100 envsC7ok) 1 ≥
      countOrderTxns dbC7 1 + 1 ∧
    countOrderTxns (checkAndExecuteDCA dbC7 100 envsC7ok) 2 ≥
      countOrderTxns dbC7 2 + 1 := by
  have henv : ∀ i, (envsC7ok i).failRecFail = none := by
    intro i
    by_cases hi : i = 0 <;> simp [envsC7ok, hi]
  exact ⟨(C7_batch_isolation dbC7 100).2 envsC7ok henv orderC7a (by decide),
    (C7_batch_isolation dbC7 100).2 envsC7ok henv orderC7b (by decide)⟩

/-! ### C4: two directed upserts per resolved feed pair -/

theorem pairUpsertStep_calls (now : Int) (st : PairLoopState) (pd : PairData) :
    (pairUpsertStep now st pd).calls = st.calls ++ [pd] := by
  unfold pairUpsertStep
  split
  split <;> rfl

theorem foldl_pairUpsertStep_calls (now : Int) :
    ∀ (pds : List PairData) (st : PairLoopState),
      (List.foldl (pairUpsertStep now) st pds).calls = st.calls ++ pds := by
  intro pds
  induction pds with
  | nil => intro st; simp
  | cons pd rest ih =>
    intro st
    calc (List.foldl (pairUpsertStep now) (pairUpsertStep now st pd)
          rest).calls
        = (pairUpsertStep now st pd).calls ++ rest := ih _
      _ = st.calls ++ [pd] ++ rest := by rw [pairUpsertStep_calls]
      _ = st.calls ++ (pd :: rest) := by simp

theorem pairPhase_as_trace (cache : Cache) (gatewayId : Nat) (now : Int) :
    ∀ (ps : List RawPair) (st : PairLoopState),
      List.foldl (pairStep cache gatewayId now) st ps =
        List.foldl (pairUpsertStep now) st
          (ps.flatMap (upsertCallsForPair cache gatewayId)) := by
  intro ps
  induction ps with
  | nil => intro st; rfl
  | cons p rest ih =>
    intro st
    calc List.foldl (pairStep cache gatewayId now)
          (pairStep cache gatewayId now st p) rest
        = List.foldl (pairUpsertStep now) (pairStep cache gatewayId now st p)
            (rest.flatMap (upsertCallsForPair cache gatewayId)) := ih _
      _ = List.foldl (pairUpsertStep now)
            (List.foldl (pairUpsertStep now) st
              (upsertCallsForPair cache gatewayId p))
            (rest.flatMap (upsertCallsForPair cache gatewayId)) := rfl
      _ = List.foldl (pairUpsertStep now) st
            ((p :: rest).flatMap (upsertCallsForPair cache gatewayId)) := by
          rw [List.flatMap_cons, List.foldl_append]

/-- C4: the pair loop of a sync pass is exactly the sequential application of
the directed-upsert trace, and for every valid filtered feed pair whose two
endpoint tokens resolve in the per-pass symbol cache to a and b, that trace
contains, for this pair, exactly two directed upserts: (token_from = a,
token_to = b, reserve0, reserve1) and (token_from = b, token_to = a, reserves
swapped), both under the same gateway id and the same stringified external
pair id. -/
theorem C4_two_directed_upserts_per_pair (cache : Cache) (gatewayId : Nat)
    (now : Int) (c : Catalog) (validPairs : List RawPair) :
    pairPhase cache gatewayId now c validPairs =
      List.foldl (pairUpsertStep now) ⟨c, [], 0, 0, []⟩
        (syncTrace cache gatewayId validPairs) ∧
    (pairPhase cache gatewayId now c validPairs).calls =
      syncTrace cache gatewayId validPairs ∧
    (∀ p a b, p ∈ validPairs →
      resolveTokenId cache p.token0_id = some a →
      resolveTokenId cache p.token1_id = some b →
      upsertCallsForPair cache gatewayId p =
        [⟨a, b, gatewayId, some (toString p.pair_id), p.reserve0.getD 0,
          p.reserve1.getD 0⟩,
         ⟨b, a, gatewayId, some (toString p.pair_id), p.reserve1.getD 0,
          p.reserve0.getD 0⟩]) := by
  refine ⟨pairPhase_as_trace cache gatewayId now validPairs _, ?_, ?_⟩
  · rw [pairPhase, pairPhase_as_trace cache gatewayId now validPairs _,
      foldl_pairUpsertStep_calls]
    rfl
  · intro p a b _ ha hb
    simp [upsertCallsForPair, ha, hb]

/-- C4 witness: the concrete pair KLV/KFI-3C with reserves (2000000, 3000000)
yields exactly the two directed calls, and the loop's call trace over the
one-pair feed is that trace. -/
theorem C4_witness :
    upsertCallsForPair cacheC4 1 rawPairC4 =
      [⟨1, 2, 1, some "3", 2000000, 3000000⟩,
       ⟨2, 1, 1, some "3", 3000000, 2000000⟩] ∧
    (pairPhase cacheC4 1 42 catalogC4 [rawPairC4]).calls =
      syncTrace cacheC4 1 [rawPairC4] := by
  constructor
  · have h := (C4_two_directed_upserts_per_pair cacheC4 1 42 catalogC4
      [rawPairC4]).2.2 rawPairC4 1 2 (by decide) (by decide) (by decide)
    rw [h]
    decide
  · exact (C4_two_directed_upserts_per_pair cacheC4 1 42 catalogC4
      [rawPairC4]).2.1

/-! ### Helper lemmas for the idempotence development (C6) -/

theorem charToNatOfNat (n : Nat) (hv : n.isValidChar) :
    (Char.ofNat n).toNat = n := by
  simp [Char.ofNat, hv, Char.ofNatAux, Char.toNat, UInt32.toNat,
    BitVec.toNat_ofNat]

theorem upperChar_idem (c : Char) : upperChar (upperChar c) = upperChar c := by
  unfold upperChar
  by_cases h : c.toNat ≥ 97 ∧ c.toNat ≤ 122
  · have hv : (c.toNat - 32).isValidChar := Or.inl (by omega)
    have ht : (Char.ofNat (c.toNat - 32)).toNat = c.toNat - 32 :=
      charToNatOfNat _ hv
    have h2 : Char.toUpper c = Char.ofNat (c.toNat - 32) := by
      unfold Char.toUpper
      simp [h]
    rw [h2]
    unfold Char.toUpper
    simp [ht]
    omega
  · have h2 : Char.toUpper c = c := by
      unfold Char.toUpper
      simp [h]
    rw [h2, h2]

theorem upperStr_idem (s : String) : upperStr (upperStr s) = upperStr s := by
  apply String.ext
  simp [upperStr, Function.comp, upperChar_idem]

theorem extract_upper_fix {t s : String} (h : extractTokenSymbol t = some s) :
    upperStr s = s := by
  unfold extractTokenSymbol at h
  by_cases he : t = ""
  · simp [he] at h
  · simp only [he, if_false] at h
    obtain ⟨rfl⟩ := h
    exact upperStr_idem _

theorem find?_eq_head?_filter {α : Type} (p : α → Bool) :
    ∀ l : List α, l.find? p = (l.filter p).head? := by
  intro l
  induction l with
  | nil => rfl
  | cons a t ih =>
    by_cases hp : p a = true
    · simp [List.find?_cons, List.filter_cons, hp]
    · simp only [Bool.not_eq_true] at hp
      rw [List.find?_cons, List.filter_cons, hp]
      simp only [Bool.false_eq_true, if_false]
      exact ih

theorem filter_map_pres {α : Type} {p : α → Bool} {f : α → α}
    (hp : ∀ x, p (f x) = p x) (l : List α) :
    (l.map f).filter p = (l.filter p).map f := by
  rw [List.filter_map]
  congr 1
  exact List.filter_congr (fun x _ => hp x)

theorem option_or_of_isSome {α : Type} {o : Option α} (h : o.isSome = true)
    (y : Option α) : o.or y = o := by
  cases o with
  | none => simp at h
  | some v => rfl

theorem pairKeyMatches_eq (pd : PairData) (r : TradingPairRow) :
    pairKeyMatches pd r = decide (rowKey r = pdKey pd) := by
  simp [pairKeyMatches, rowKey, pdKey, Prod.ext_iff, Bool.and_assoc]

theorem rowKey_pairUpdateFn (pd : PairData) (now : Int) (q : TradingPairRow) :
    rowKey (pairUpdateFn pd now q) = rowKey q := by
  unfold pairUpdateFn
  by_cases h : pairKeyMatches pd q = true <;> simp [h, rowKey]

theorem admin_pairUpdateFn (pd : PairData) (now : Int) (q : TradingPairRow) :
    (pairUpdateFn pd now q).admin_disabled = q.admin_disabled := by
  unfold pairUpdateFn
  by_cases h : pairKeyMatches pd q = true <;> simp [h]

theorem rowKey_deactFn (g : Nat) (keep : List Nat) (q : TradingPairRow) :
    rowKey (deactFn g keep q) = rowKey q := by
  unfold deactFn
  by_cases h : staleCondition g keep q = true <;> simp [h, rowKey]

theorem admin_deactFn (g : Nat) (keep : List Nat) (q : TradingPairRow) :
    (deactFn g keep q).admin_disabled = q.admin_disabled := by
  unfold deactFn
  by_cases h : staleCondition g keep q = true <;> simp [h]

theorem nodup_filter_singleton {l : List TradingPairRow}
    (hn : (l.map rowKey).Nodup) {κ : Nat × Nat × Nat} {r : TradingPairRow}
    (hf : l.find? (fun x => rowKey x = κ) = some r) :
    l.filter (fun x => rowKey x = κ) = [r] := by
  induction l with
  | nil => cases hf
  | cons a t ih =>
    simp only [List.map_cons, List.nodup_cons] at hn
    by_cases hp : (rowKey a = κ)
    · have hfa : List.find? (fun x => decide (rowKey x = κ)) (a :: t) =
          some a := by simp [List.find?_cons, hp]
      rw [hf] at hfa
      obtain ⟨rfl⟩ := hfa
      have ht : t.filter (fun x => decide (rowKey x = κ)) = [] := by
        rw [List.filter_eq_nil_iff]
        intro x hx
        simp only [decide_eq_true_eq]
        intro hxk
        exact hn.1 (List.mem_map.mpr ⟨x, hx, hxk.trans hp.symm⟩)
      simp [List.filter_cons, hp, ht]
    · have hfa : List.find? (fun x => decide (rowKey x = κ)) (a :: t) =
          List.find? (fun x => decide (rowKey x = κ)) t := by
        simp [List.find?_cons, hp]
      rw [hfa] at hf
      rw [List.filter_cons]
      have hd : decide (rowKey a = κ) = false := by simp [hp]
      rw [hd]
      exact ih hn.2 hf

theorem pairUpsertStep_update (now : Int) (st : PairLoopState) (pd : PairData)
    (r : TradingPairRow)
    (hf : st.cat.pairs.find? (pairKeyMatches pd) = some r)
    (hadm : r.admin_disabled = false) :
    pairUpsertStep now st pd =
      ⟨{ st.cat with pairs := st.cat.pairs.map (pairUpdateFn pd now) },
       st.updatedPairIds ++ [r.id], st.pairsUpdated + 1, st.pairsSkipped,
       st.calls ++ [pd]⟩ := by
  unfold pairUpsertStep upsertTradingPairRespectingAdmin
  rw [hf]
  simp [hadm]

theorem pairUpsertStep_insert (now : Int) (st : PairLoopState) (pd : PairData)
    (hf : st.cat.pairs.find? (pairKeyMatches pd) = none) :
    pairUpsertStep now st pd =
      ⟨{ st.cat with
          pairs := st.cat.pairs ++ [pairInsertRow st.cat pd now]
          nextId := st.cat.nextId + 1 },
       st.updatedPairIds ++ [st.cat.nextId], st.pairsUpdated + 1,
       st.pairsSkipped, st.calls ++ [pd]⟩ := by
  unfold pairUpsertStep upsertTradingPairRespectingAdmin
  rw [hf]
  rfl

theorem pairInsertRow_eq_satRow (c : Catalog) (pd : PairData) (now : Int) :
    pairInsertRow c pd now = satRow pd c.nextId now := rfl

theorem rowKey_satRow (pd : PairData) (i : Nat) (now : Int) :
    rowKey (satRow pd i now) = pdKey pd := rfl

theorem pairUpdateFn_of_match (pd : PairData) (now : Int) (q : TradingPairRow)
    (h : pairKeyMatches pd q = true) (hadm : q.admin_disabled = false)
    (hext : pd.pair_id_external.isSome = true) :
    pairUpdateFn pd now q = satRow pd q.id now := by
  have h2 := h
  simp only [pairKeyMatches, Bool.and_eq_true, decide_eq_true_eq] at h2
  obtain ⟨⟨h3, h4⟩, h5⟩ := h2
  unfold pairUpdateFn
  rw [if_pos h]
  simp [satRow, h3, h4, h5, hadm, option_or_of_isSome hext]

theorem pairUpdateFn_satRow (pd : PairData) (i : Nat) (now : Int) :
    pairUpdateFn pd now (satRow pd i now) = satRow pd i now := by
  unfold pairUpdateFn
  rw [if_pos (by simp [pairKeyMatches, satRow])]
  simp [satRow, Option.or_self]

theorem filter_rowKey_map_pairUpdateFn (pd : PairData) (now : Int)
    (l : List TradingPairRow) (κ : Nat × Nat × Nat) (hk : κ ≠ pdKey pd) :
    (l.map (pairUpdateFn pd now)).filter (fun r => rowKey r = κ) =
      l.filter (fun r => rowKey r = κ) := by
  rw [filter_map_pres (fun x => by rw [rowKey_pairUpdateFn])]
  have hcg : ∀ x ∈ l.filter (fun r => rowKey r = κ),
      pairUpdateFn pd now x = x := by
    intro x hx
    have hxk : rowKey x = κ := by
      have := List.mem_filter.mp hx
      simpa using this.2
    unfold pairUpdateFn
    rw [if_neg]
    intro hcon
    rw [pairKeyMatches_eq] at hcon
    simp only [decide_eq_true_eq] at hcon
    exact hk (hxk ▸ hcon ▸ rfl)
  calc (l.filter (fun r => rowKey r = κ)).map (pairUpdateFn pd now)
      = (l.filter (fun r => rowKey r = κ)).map id :=
        List.map_congr_left (fun x hx => hcg x hx)
    _ = l.filter (fun r => rowKey r = κ) := List.map_id _

theorem find?_rowKey_of_pairKeyMatches (pd : PairData)
    (l : List TradingPairRow) :
    l.find? (pairKeyMatches pd) =
      l.find? (fun r => rowKey r = pdKey pd) := by
  have hp : pairKeyMatches pd = (fun r => decide (rowKey r = pdKey pd)) :=
    funext (fun r => pairKeyMatches_eq pd r)
  rw [hp]

theorem pairRun_characterization (now : Int) :
    ∀ (pds : List PairData) (st : PairLoopState),
      (∀ r ∈ st.cat.pairs, r.admin_disabled = false) →
      ((st.cat.pairs.map rowKey).Nodup) →
      ((pds.map pdKey).Nodup) →
      (∀ pd ∈ pds, pd.pair_id_external.isSome = true) →
      ∃ (C : Catalog) (ids : List Nat),
        List.foldl (pairUpsertStep now) st pds =
          ⟨C, st.updatedPairIds ++ ids, st.pairsUpdated + pds.length,
           st.pairsSkipped, st.calls ++ pds⟩ ∧
        ids.length = pds.length ∧
        (∀ r ∈ C.pairs, r.admin_disabled = false) ∧
        ((C.pairs.map rowKey).Nodup) ∧
        C.tokens = st.cat.tokens ∧
        C.gateways = st.cat.gateways ∧
        (∀ κ : Nat × Nat × Nat, κ ∉ pds.map pdKey →
          C.pairs.filter (fun r => rowKey r = κ) =
            st.cat.pairs.filter (fun r => rowKey r = κ)) ∧
        (∀ i (h : i < pds.length),
          C.pairs.filter (fun r => rowKey r = pdKey (pds.get ⟨i, h⟩)) =
            [satRow (pds.get ⟨i, h⟩) (ids.getD i 0) now]) := by
  intro pds
  induction pds with
  | nil =>
    intro st hadm hnd _ _
    refine ⟨st.cat, [], ?_, rfl, hadm, hnd, rfl, rfl, fun κ _ => rfl,
      fun i h => absurd h (by simp)⟩
    obtain ⟨cat, ids, u, sk, calls⟩ := st
    simp
  | cons pd rest ih =>
    intro st hadm hnd hnodup hext
    have hext0 : pd.pair_id_external.isSome = true :=
      hext pd (List.mem_cons_self _ _)
    have hextr : ∀ q ∈ rest, q.pair_id_external.isSome = true :=
      fun q hq => hext q (List.mem_cons_of_mem _ hq)
    have hnodup' := hnodup
    simp only [List.map_cons, List.nodup_cons] at hnodup'
    obtain ⟨hknotin, hndr⟩ := hnodup'
    rcases hf : st.cat.pairs.find? (pairKeyMatches pd) with _ | r
    · -- no existing row with this key: INSERT branch
      have hstep := pairUpsertStep_insert now st pd hf
      have hnoneRK : ∀ x ∈ st.cat.pairs, ¬(rowKey x = pdKey pd) := by
        intro x hx hcon
        have := List.find?_eq_none.mp hf x hx
        rw [pairKeyMatches_eq] at this
        simp [hcon] at this
      have hfiltnil : st.cat.pairs.filter
          (fun r => rowKey r = pdKey pd) = [] := by
        rw [List.filter_eq_nil_iff]
        intro x hx
        simpa using hnoneRK x hx
      obtain ⟨C, idsr, heq, hlen, hadmC, hndC, htokC, hgwC, hframe, hsat⟩ :=
        ih ⟨{ st.cat with
            pairs := st.cat.pairs ++ [pairInsertRow st.cat pd now]
            nextId := st.cat.nextId + 1 },
          st.updatedPairIds ++ [st.cat.nextId], st.pairsUpdated + 1,
          st.pairsSkipped, st.calls ++ [pd]⟩
          (by
            intro q hq
            rcases List.mem_append.mp hq with hq1 | hq2
            · exact hadm q hq1
            · rw [List.mem_singleton.mp hq2]
              rfl)
          (by
            show ((st.cat.pairs ++ [pairInsertRow st.cat pd now]).map
              rowKey).Nodup
            rw [List.map_append]
            rw [List.nodup_append]
            refine ⟨hnd, List.nodup_singleton _, ?_⟩
            intro κ hκ1 hκ2
            obtain ⟨x, hx, rfl⟩ := List.mem_map.mp hκ1
            simp only [List.map_cons, List.map_nil, List.mem_cons,
              List.not_mem_nil, or_false] at hκ2
            rw [pairInsertRow_eq_satRow, rowKey_satRow] at hκ2
            exact hnoneRK x hx hκ2)
          hndr hextr
      refine ⟨C, st.cat.nextId :: idsr, ?_, by simpa using hlen, hadmC, hndC,
        htokC, hgwC, ?_, ?_⟩
      · rw [List.foldl_cons, hstep, heq]
        simp [PairLoopState.mk.injEq, List.append_assoc, Nat.add_comm,
          Nat.add_assoc, Nat.add_left_comm]
      · intro κ hκ
        simp only [List.map_cons, List.mem_cons, not_or] at hκ
        obtain ⟨hκ1, hκ2⟩ := hκ
        rw [hframe κ hκ2]
        show (st.cat.pairs ++ [pairInsertRow st.cat pd now]).filter
            (fun r => rowKey r = κ) = _
        rw [List.filter_append]
        have hni : ¬(pdKey pd = κ) := fun h => hκ1 h.symm
        simp [pairInsertRow_eq_satRow, rowKey_satRow, hni]
      · intro i h
        cases i with
        | zero =>
          have hg : (pd :: rest).get ⟨0, h⟩ = pd := rfl
          rw [hg]
          rw [hframe (pdKey pd) hknotin]
          show (st.cat.pairs ++ [pairInsertRow st.cat pd now]).filter
              (fun r => rowKey r = pdKey pd) = _
          rw [List.filter_append, hfiltnil]
          simp [pairInsertRow_eq_satRow, rowKey_satRow]
        | succ i =>
          have hi : i < rest.length := by
            simpa using Nat.lt_of_succ_lt_succ (by simpa using h)
          simp only [List.get_cons_succ, List.getD_cons_succ]
          exact hsat i hi
    · -- an existing row with this key: ON CONFLICT UPDATE branch
      have hradm : r.admin_disabled = false :=
        hadm r (List.mem_of_find?_eq_some hf)
      have hstep := pairUpsertStep_update now st pd r hf hradm
      have hkeymap : (st.cat.pairs.map (pairUpdateFn pd now)).map rowKey =
          st.cat.pairs.map rowKey := by
        rw [List.map_map]
        exact List.map_congr_left (fun a _ => rowKey_pairUpdateFn pd now a)
      obtain ⟨C, idsr, heq, hlen, hadmC, hndC, htokC, hgwC, hframe, hsat⟩ :=
        ih ⟨{ st.cat with
            pairs := st.cat.pairs.map (pairUpdateFn pd now) },
          st.updatedPairIds ++ [r.id], st.pairsUpdated + 1,
          st.pairsSkipped, st.calls ++ [pd]⟩
          (by
            intro q hq
            obtain ⟨x, hx, rfl⟩ := List.mem_map.mp hq
            rw [admin_pairUpdateFn]
            exact hadm x hx)
          (by
            show ((st.cat.pairs.map (pairUpdateFn pd now)).map rowKey).Nodup
            rw [hkeymap]
            exact hnd)
          hndr hextr
      refine ⟨C, r.id :: idsr, ?_, by simpa using hlen, hadmC, hndC,
        htokC, hgwC, ?_, ?_⟩
      · rw [List.foldl_cons, hstep, heq]
        simp [PairLoopState.mk.injEq, List.append_assoc, Nat.add_comm,
          Nat.add_assoc, Nat.add_left_comm]
      · intro κ hκ
        simp only [List.map_cons, List.mem_cons, not_or] at hκ
        obtain ⟨hκ1, hκ2⟩ := hκ
        rw [hframe κ hκ2]
        show (st.cat.pairs.map (pairUpdateFn pd now)).filter
            (fun q => rowKey q = κ) = _
        exact filter_rowKey_map_pairUpdateFn pd now st.cat.pairs κ hκ1
      · intro i h
        cases i with
        | zero =>
          have hg : (pd :: rest).get ⟨0, h⟩ = pd := rfl
          rw [hg]
          rw [hframe (pdKey pd) hknotin]
          show (st.cat.pairs.map (pairUpdateFn pd now)).filter
              (fun q => rowKey q = pdKey pd) = _
          rw [filter_map_pres (fun x => by rw [rowKey_pairUpdateFn])]
          have hfr : st.cat.pairs.find?
              (fun q => rowKey q = pdKey pd) = some r := by
            rw [← find?_rowKey_of_pairKeyMatches]
            exact hf
          rw [nodup_filter_singleton hnd hfr]
          have hupd : pairUpdateFn pd now r = satRow pd r.id now :=
            pairUpdateFn_of_match pd now r (List.find?_some hf) hradm hext0
          simp [hupd]
        | succ i =>
          have hi : i < rest.length := by
            simpa using Nat.lt_of_succ_lt_succ (by simpa using h)
          simp only [List.get_cons_succ, List.getD_cons_succ]
          exact hsat i hi

/-! ### Supporting lemmas: token-loop replay (C6) -/

theorem map_fix {α : Type} {f : α → α} :
    ∀ {l : List α}, (∀ x ∈ l, f x = x) → l.map f = l := by
  intro l
  induction l with
  | nil => intro _; rfl
  | cons a t ih =>
    intro h
    rw [List.map_cons, h a (List.mem_cons_self _ _),
      ih (fun x hx => h x (List.mem_cons_of_mem _ hx))]

theorem nodup_key_filter_single {α β : Type} [DecidableEq β] (key : α → β)
    {l : List α} (hn : (l.map key).Nodup) {k : β} {r : α}
    (hf : l.find? (fun x => key x = k) = some r) :
    l.filter (fun x => key x = k) = [r] := by
  induction l with
  | nil => cases hf
  | cons a t ih =>
    simp only [List.map_cons, List.nodup_cons] at hn
    by_cases hp : (key a = k)
    · have hfa : List.find? (fun x => decide (key x = k)) (a :: t) =
          some a := by simp [List.find?_cons, hp]
      rw [hf] at hfa
      obtain ⟨rfl⟩ := hfa
      have ht : t.filter (fun x => decide (key x = k)) = [] := by
        rw [List.filter_eq_nil_iff]
        intro x hx
        simp only [decide_eq_true_eq]
        intro hxk
        exact hn.1 (List.mem_map.mpr ⟨x, hx, hxk.trans hp.symm⟩)
      simp [List.filter_cons, hp, ht]
    · have hfa : List.find? (fun x => decide (key x = k)) (a :: t) =
          List.find? (fun x => decide (key x = k)) t := by
        simp [List.find?_cons, hp]
      rw [hfa] at hf
      rw [List.filter_cons]
      have hd : decide (key a = k) = false := by simp [hp]
      rw [hd]
      exact ih hn.2 hf

theorem find?_of_map_prefix {α β : Type} (g : α → β) (p : β → Bool) :
    ∀ (l l' : List α) (ext : List β),
      l'.map g = l.map g ++ ext →
      ∀ {r : α}, l.find? (fun a => p (g a)) = some r →
      ∃ r', l'.find? (fun a => p (g a)) = some r' ∧ g r' = g r := by
  intro l
  induction l with
  | nil => intro l' ext _ r hf; cases hf
  | cons a t ih =>
    intro l' ext hpre r hf
    cases l' with
    | nil => simp at hpre
    | cons a' t' =>
      simp only [List.map_cons, List.cons_append, List.cons.injEq] at hpre
      obtain ⟨hga, hpre'⟩ := hpre
      by_cases hp : p (g a) = true
      · simp only [List.find?_cons, hp] at hf
        have : r = a := by
          cases hf
          rfl
        subst this
        refine ⟨a', ?_, hga⟩
        simp only [List.find?_cons, hga, hp]
      · simp only [Bool.not_eq_true] at hp
        simp only [List.find?_cons, hp] at hf
        obtain ⟨r', hr', hgr⟩ := ih t' ext hpre' hf
        refine ⟨r', ?_, hgr⟩
        simp only [List.find?_cons, hga, hp]
        exact hr'

theorem any_of_map_prefix {α β : Type} (g : α → β) (p : β → Bool)
    (l l' : List α) (ext : List β) (h : l'.map g = l.map g ++ ext)
    (ha : l.any (fun a => p (g a)) = true) :
    l'.any (fun a => p (g a)) = true := by
  rw [List.any_eq_true] at ha ⊢
  obtain ⟨x, hx, hpx⟩ := ha
  have hmem : g x ∈ l'.map g := by
    rw [h]
    exact List.mem_append_left _ (List.mem_map.mpr ⟨x, hx, rfl⟩)
  obtain ⟨y, hy, hgy⟩ := List.mem_map.mp hmem
  exact ⟨y, hy, by rw [hgy]; exact hpx⟩

theorem cacheTruthy_nonzero {κ : Cache} {s : String} {i : Nat}
    (h : cacheTruthy κ s = some i) : i ≠ 0 := by
  unfold cacheTruthy at h
  rcases hl : List.lookup s κ with _ | n
  · simp only [hl] at h
    cases h
  · simp only [hl] at h
    by_cases hn : n = 0
    · rw [if_pos hn] at h; cases h
    · rw [if_neg hn] at h
      cases h
      exact hn

theorem cacheTruthy_set_self (κ : Cache) (s : String) {i : Nat} (hi : i ≠ 0) :
    cacheTruthy (cacheSet κ s i) s = some i := by
  unfold cacheTruthy cacheSet
  simp [List.lookup, hi]

theorem cacheTruthy_set_preserve {κ : Cache} {s : String} {i : Nat}
    (h : cacheTruthy κ s = some i) {s' : String} (i' : Nat)
    (hs : cacheTruthy κ s' = none) :
    cacheTruthy (cacheSet κ s' i') s = some i := by
  have hne : s ≠ s' := by
    intro he
    rw [he] at h
    rw [h] at hs
    cases hs
  unfold cacheTruthy cacheSet
  unfold cacheTruthy at h
  simp only [List.lookup]
  have : (s == s') = false := by
    simp [hne]
  rw [this]
  exact h

theorem tokenSkel_updateFn (td : TokenData) (t : TokenRow) :
    tokenSkel (tokenUpdateFn td t) = tokenSkel t := by
  unfold tokenUpdateFn
  by_cases h : t.contract_address = tokenKey td <;> simp [h, tokenSkel]

theorem contract_updateFn (td : TokenData) (t : TokenRow) :
    (tokenUpdateFn td t).contract_address = t.contract_address := by
  unfold tokenUpdateFn
  by_cases h : t.contract_address = tokenKey td <;> simp [h]

theorem id_updateFn (td : TokenData) (t : TokenRow) :
    (tokenUpdateFn td t).id = t.id := by
  unfold tokenUpdateFn
  by_cases h : t.contract_address = tokenKey td <;> simp [h]

theorem admin_updateFn (td : TokenData) (t : TokenRow) :
    (tokenUpdateFn td t).admin_disabled = t.admin_disabled := by
  unfold tokenUpdateFn
  by_cases h : t.contract_address = tokenKey td <;> simp [h]

theorem tokenUpdateFn_idem (td : TokenData) (t : TokenRow) :
    tokenUpdateFn td (tokenUpdateFn td t) = tokenUpdateFn td t := by
  by_cases h : t.contract_address = tokenKey td
  · have h2 : (tokenUpdateFn td t).contract_address = tokenKey td := by
      rw [contract_updateFn]
      exact h
    unfold tokenUpdateFn
    rw [if_pos h, if_pos (by simp [tokenUpdateFn, h])]
    cases htd : td.logo_url <;> cases ha : t.admin_disabled <;>
      simp [Option.or, ha]
  · unfold tokenUpdateFn
    rw [if_neg h, if_neg h]

theorem tokenUpdateFn_insertRow (c : Catalog) (td : TokenData) :
    tokenUpdateFn td (tokenInsertRow c td) = tokenInsertRow c td := by
  unfold tokenUpdateFn tokenInsertRow
  simp [Option.or_self]

theorem skel_map_updateFn (td : TokenData) (l : List TokenRow) :
    (l.map (tokenUpdateFn td)).map tokenSkel = l.map tokenSkel := by
  rw [List.map_map]
  exact List.map_congr_left (fun x _ => tokenSkel_updateFn td x)

theorem map_contract_of_skel {l l' : List TokenRow}
    (h : l'.map tokenSkel = l.map tokenSkel) :
    l'.map TokenRow.contract_address = l.map TokenRow.contract_address := by
  have hm : ∀ m : List TokenRow, m.map TokenRow.contract_address =
      (m.map tokenSkel).map (fun x => x.2.2.1) := by
    intro m
    rw [List.map_map]
    rfl
  rw [hm, hm, h]

theorem filter_contract_map_updateFn (td : TokenData) (l : List TokenRow)
    (k : String) :
    (l.map (tokenUpdateFn td)).filter (fun t => t.contract_address = k) =
      (l.filter (fun t => t.contract_address = k)).map (tokenUpdateFn td) :=
  filter_map_pres (fun x => by rw [contract_updateFn]) l

theorem filter_contract_map_updateFn_ne (td : TokenData) (l : List TokenRow)
    (k : String) (hk : k ≠ tokenKey td) :
    (l.map (tokenUpdateFn td)).filter (fun t => t.contract_address = k) =
      l.filter (fun t => t.contract_address = k) := by
  rw [filter_contract_map_updateFn]
  apply map_fix
  intro x hx
  have hxk : x.contract_address = k := by
    have := List.mem_filter.mp hx
    simpa using this.2
  unfold tokenUpdateFn
  rw [if_neg (by rw [hxk]; exact hk)]

theorem getGatewayBySlug_congr {c c' : Catalog}
    (h : c.gateways = c'.gateways) (s : String) :
    getGatewayBySlug c s = getGatewayBySlug c' s := by
  unfold getGatewayBySlug
  rw [h]

theorem tokStep_skip_noSym (base : String) (c : Catalog) (κ : Cache)
    (e : String × TokenInfo) (hE : extractTokenSymbol e.1 = none) :
    tokStep base (c, κ) e = (c, κ) := by
  unfold tokStep
  rw [hE]

theorem tokStep_skip_empty (base : String) (c : Catalog) (κ : Cache)
    (e : String × TokenInfo) (hE : extractTokenSymbol e.1 = some "") :
    tokStep base (c, κ) e = (c, κ) := by
  unfold tokStep
  rw [hE]
  simp

theorem tokStep_skip_cached (base : String) (c : Catalog) (κ : Cache)
    (e : String × TokenInfo) {s : String} {i : Nat}
    (hE : extractTokenSymbol e.1 = some s) (hs : s ≠ "")
    (hct : cacheTruthy κ s = some i) :
    tokStep base (c, κ) e = (c, κ) := by
  unfold tokStep
  rw [hE]
  simp only [if_neg hs, hct]

theorem tokStep_proc_upserted (base : String) (c : Catalog) (κ : Cache)
    (e : String × TokenInfo) {s : String} {c' : Catalog}
    {res : UpsertTokenResult}
    (hE : extractTokenSymbol e.1 = some s) (hs : s ≠ "")
    (hct : cacheTruthy κ s = none)
    (hup : upsertToken c (tokTd base e s) = some (c', res)) :
    tokStep base (c, κ) e = (c', cacheSet κ s res.id) := by
  unfold tokStep
  rw [hE]
  unfold tokTd at hup
  simp only [if_neg hs, hct, hup]

theorem tokStep_proc_fallback (base : String) (c : Catalog) (κ : Cache)
    (e : String × TokenInfo) {s : String} {row : TokenRow}
    (hE : extractTokenSymbol e.1 = some s) (hs : s ≠ "")
    (hct : cacheTruthy κ s = none)
    (hup : upsertToken c (tokTd base e s) = none)
    (hgt : getTokenBySymbol c s = some row) :
    tokStep base (c, κ) e = (c, cacheSet κ s row.id) := by
  unfold tokStep
  rw [hE]
  unfold tokTd at hup
  simp only [if_neg hs, hct, hup, hgt]

theorem tokStep_proc_fallback_miss (base : String) (c : Catalog) (κ : Cache)
    (e : String × TokenInfo) {s : String}
    (hE : extractTokenSymbol e.1 = some s) (hs : s ≠ "")
    (hct : cacheTruthy κ s = none)
    (hup : upsertToken c (tokTd base e s) = none)
    (hgt : getTokenBySymbol c s = none) :
    tokStep base (c, κ) e = (c, κ) := by
  unfold tokStep
  rw [hE]
  unfold tokTd at hup
  simp only [if_neg hs, hct, hup, hgt]

theorem tokenKey_tokTd (base : String) (e : String × TokenInfo) (s : String)
    (hE : extractTokenSymbol e.1 = some s) :
    tokenKey (tokTd base e s) = e.1 := by
  have he1 : e.1 ≠ "" := by
    intro h
    rw [h] at hE
    cases hE
  unfold tokenKey tokTd jsOrStr
  simp [he1]

theorem upsertToken_found_admin {c : Catalog} {td : TokenData} {r : TokenRow}
    (hfc : c.tokens.find? (fun x => x.contract_address = tokenKey td) =
      some r)
    (hadm : r.admin_disabled = true) :
    upsertToken c td = some (c, ⟨r.id, true⟩) := by
  unfold upsertToken
  rw [hfc]
  simp [hadm]

theorem upsertToken_found_update {c : Catalog} {td : TokenData} {r : TokenRow}
    (hfc : c.tokens.find? (fun x => x.contract_address = tokenKey td) =
      some r)
    (hadm : r.admin_disabled = false) :
    upsertToken c td =
      some ({ c with tokens := c.tokens.map (tokenUpdateFn td) },
        ⟨r.id, false⟩) := by
  unfold upsertToken
  rw [hfc]
  simp [hadm]

theorem upsertToken_insert {c : Catalog} {td : TokenData}
    (hfc : c.tokens.find? (fun x => x.contract_address = tokenKey td) = none)
    (hany : c.tokens.any (fun x => x.symbol = td.symbol) = false) :
    upsertToken c td =
      some ({ c with
        tokens := c.tokens ++ [tokenInsertRow c td]
        nextId := c.nextId + 1 }, ⟨c.nextId, false⟩) := by
  unfold upsertToken
  rw [hfc]
  simp [hany]

theorem upsertToken_conflict {c : Catalog} {td : TokenData}
    (hfc : c.tokens.find? (fun x => x.contract_address = tokenKey td) = none)
    (hany : c.tokens.any (fun x => x.symbol = td.symbol) = true) :
    upsertToken c td = none := by
  unfold upsertToken
  rw [hfc]
  simp [hany]

/-- One pass of the token loop, run from any starting cache, preserves the
pairs/gateways tables and the token invariants, only grows the symbol cache
truthily, only appends to the frozen token skeleton, leaves contract groups
of already-cached symbols untouched, and — the replay property — re-running
the loop over a catalog holding the pass's final token table reproduces the
final cache without writing anything. -/
theorem tokReplay (base : String) :
    ∀ (toks : List (String × TokenInfo)) (c : Catalog) (κ : Cache),
      ((c.tokens.map TokenRow.contract_address).Nodup) →
      (∀ t ∈ c.tokens, t.id ≠ 0) →
      (c.nextId ≠ 0) →
      ∃ (c₁ : Catalog) (κ₁ : Cache),
        List.foldl (tokStep base) (c, κ) toks = (c₁, κ₁) ∧
        c₁.pairs = c.pairs ∧
        c₁.gateways = c.gateways ∧
        ((c₁.tokens.map TokenRow.contract_address).Nodup) ∧
        (∀ t ∈ c₁.tokens, t.id ≠ 0) ∧
        c₁.nextId ≠ 0 ∧
        (∀ s i, cacheTruthy κ s = some i → cacheTruthy κ₁ s = some i) ∧
        (∃ ext, c₁.tokens.map tokenSkel = c.tokens.map tokenSkel ++ ext) ∧
        (∀ k s, extractTokenSymbol k = some s →
          (∃ i, cacheTruthy κ s = some i) →
          c₁.tokens.filter (fun t => t.contract_address = k) =
            c.tokens.filter (fun t => t.contract_address = k)) ∧
        (∀ T : Catalog, T.tokens = c₁.tokens →
          List.foldl (tokStep base) (T, κ) toks = (T, κ₁)) := by
  intro toks
  induction toks with
  | nil =>
    intro c κ hnd hid hnx
    exact ⟨c, κ, rfl, rfl, rfl, hnd, hid, hnx, fun s i h => h, ⟨[], by simp⟩,
      fun k s _ _ => rfl, fun T _ => rfl⟩
  | cons e rest ih =>
    intro c κ hnd hid hnx
    rcases hE : extractTokenSymbol e.1 with _ | s
    · -- falsy token id: the entry is skipped
      obtain ⟨c₁, κ₁, h1, h2, h3, h4, h5, h6, h7, h8, h9, h10⟩ :=
        ih c κ hnd hid hnx
      refine ⟨c₁, κ₁, ?_, h2, h3, h4, h5, h6, h7, h8, h9, ?_⟩
      · rw [List.foldl_cons, tokStep_skip_noSym base c κ e hE]
        exact h1
      · intro T hT
        rw [List.foldl_cons, tokStep_skip_noSym base T κ e hE]
        exact h10 T hT
    by_cases hs : s = ""
    · -- empty symbol: the entry is skipped
      subst hs
      obtain ⟨c₁, κ₁, h1, h2, h3, h4, h5, h6, h7, h8, h9, h10⟩ :=
        ih c κ hnd hid hnx
      refine ⟨c₁, κ₁, ?_, h2, h3, h4, h5, h6, h7, h8, h9, ?_⟩
      · rw [List.foldl_cons, tokStep_skip_empty base c κ e hE]
        exact h1
      · intro T hT
        rw [List.foldl_cons, tokStep_skip_empty base T κ e hE]
        exact h10 T hT
    rcases hct : cacheTruthy κ s with _ | i₀
    rotate_left 1
    ·
      -- the symbol is already cached: the entry is skipped
      obtain ⟨c₁, κ₁, h1, h2, h3, h4, h5, h6, h7, h8, h9, h10⟩ :=
        ih c κ hnd hid hnx
      refine ⟨c₁, κ₁, ?_, h2, h3, h4, h5, h6, h7, h8, h9, ?_⟩
      · rw [List.foldl_cons, tokStep_skip_cached base c κ e hE hs hct]
        exact h1
      · intro T hT
        rw [List.foldl_cons, tokStep_skip_cached base T κ e hE hs hct]
        exact h10 T hT
    -- the entry is processed, on the none goal brought back by the rotation
    have hkey : tokenKey (tokTd base e s) = e.1 := tokenKey_tokTd base e s hE
    rcases hfc : c.tokens.find?
        (fun x => x.contract_address = tokenKey (tokTd base e s)) with _ | r
    rotate_left 1
    ·
      have hfcE : c.tokens.find? (fun x => x.contract_address = e.1) =
          some r := by
        rw [← hkey]
        exact hfc
      have hsing : c.tokens.filter (fun x => x.contract_address = e.1) =
          [r] :=
        nodup_key_filter_single (fun t : TokenRow => t.contract_address) hnd hfcE
      have hmem := List.mem_of_find?_eq_some hfc
      have hrid : r.id ≠ 0 := hid r hmem
      by_cases hradm : r.admin_disabled = true
      · -- existing admin-disabled token: returned untouched, skipped: true
        have hup := upsertToken_found_admin hfc hradm
        have hstep : tokStep base (c, κ) e = (c, cacheSet κ s r.id) := by
          rw [tokStep_proc_upserted base c κ e hE hs hct hup]
        obtain ⟨c₁, κ₁, h1, h2, h3, h4, h5, h6, h7, h8, h9, h10⟩ :=
          ih c (cacheSet κ s r.id) hnd hid hnx
        have htr : cacheTruthy (cacheSet κ s r.id) s = some r.id :=
          cacheTruthy_set_self κ s hrid
        refine ⟨c₁, κ₁, ?_, h2, h3, h4, h5, h6, ?_, h8, ?_, ?_⟩
        · rw [List.foldl_cons, hstep]
          exact h1
        · intro s' i' h'
          exact h7 s' i' (cacheTruthy_set_preserve h' r.id hct)
        · intro k' s' hE' hi'
          obtain ⟨i', hi'⟩ := hi'
          exact h9 k' s' hE' ⟨i', cacheTruthy_set_preserve hi' r.id hct⟩
        · intro T hT
          rw [List.foldl_cons]
          have hpersist : c₁.tokens.filter
              (fun t => t.contract_address = e.1) = [r] := by
            rw [h9 e.1 s hE ⟨r.id, htr⟩]
            exact hsing
          have hfT : T.tokens.find?
              (fun x => x.contract_address = tokenKey (tokTd base e s)) =
              some r := by
            rw [find?_eq_head?_filter, hkey, hT, hpersist]
            rfl
          have hupT := upsertToken_found_admin hfT hradm
          have hstepT : tokStep base (T, κ) e = (T, cacheSet κ s r.id) := by
            rw [tokStep_proc_upserted base T κ e hE hs hct hupT]
          rw [hstepT]
          exact h10 T hT
      · -- existing token row: ON CONFLICT DO UPDATE refreshes it
        simp only [Bool.not_eq_true] at hradm
        have hup := upsertToken_found_update hfc hradm
        have hstep : tokStep base (c, κ) e =
            ({ c with tokens := c.tokens.map (tokenUpdateFn (tokTd base e s)) },
             cacheSet κ s r.id) := by
          rw [tokStep_proc_upserted base c κ e hE hs hct hup]
        have hndstep : (((c.tokens.map (tokenUpdateFn (tokTd base e s))).map
            TokenRow.contract_address)).Nodup := by
          rw [map_contract_of_skel (skel_map_updateFn _ _)]
          exact hnd
        have hidstep : ∀ t ∈ c.tokens.map (tokenUpdateFn (tokTd base e s)),
            t.id ≠ 0 := by
          intro t ht
          obtain ⟨x, hx, rfl⟩ := List.mem_map.mp ht
          rw [id_updateFn]
          exact hid x hx
        obtain ⟨c₁, κ₁, h1, h2, h3, h4, h5, h6, h7, h8, h9, h10⟩ :=
          ih { c with tokens := c.tokens.map (tokenUpdateFn (tokTd base e s)) }
            (cacheSet κ s r.id) hndstep hidstep hnx
        have htr : cacheTruthy (cacheSet κ s r.id) s = some r.id :=
          cacheTruthy_set_self κ s hrid
        refine ⟨c₁, κ₁, ?_, h2, h3, h4, h5, h6, ?_, ?_, ?_, ?_⟩
        · rw [List.foldl_cons, hstep]
          exact h1
        · intro s' i' h'
          exact h7 s' i' (cacheTruthy_set_preserve h' r.id hct)
        · obtain ⟨ext, hext⟩ := h8
          refine ⟨ext, ?_⟩
          rw [hext]
          show ((c.tokens.map (tokenUpdateFn (tokTd base e s))).map
            tokenSkel) ++ ext = c.tokens.map tokenSkel ++ ext
          rw [skel_map_updateFn]
        · intro k' s' hE' hi'
          obtain ⟨i', hi'⟩ := hi'
          have hkne : k' ≠ tokenKey (tokTd base e s) := by
            rw [hkey]
            intro hkk
            rw [hkk] at hE'
            rw [hE] at hE'
            cases hE'
            rw [hi'] at hct
            cases hct
          rw [h9 k' s' hE' ⟨i', cacheTruthy_set_preserve hi' r.id hct⟩]
          show (c.tokens.map (tokenUpdateFn (tokTd base e s))).filter
              (fun t => t.contract_address = k') = _
          rw [filter_contract_map_updateFn_ne _ _ _ hkne]
        · intro T hT
          rw [List.foldl_cons]
          have hpersist : c₁.tokens.filter
              (fun t => t.contract_address = e.1) =
              [tokenUpdateFn (tokTd base e s) r] := by
            rw [h9 e.1 s hE ⟨r.id, htr⟩]
            show (c.tokens.map (tokenUpdateFn (tokTd base e s))).filter
                (fun t => t.contract_address = e.1) = _
            rw [filter_contract_map_updateFn, hsing]
            rfl
          have hfT : T.tokens.find?
              (fun x => x.contract_address = tokenKey (tokTd base e s)) =
              some (tokenUpdateFn (tokTd base e s) r) := by
            rw [find?_eq_head?_filter, hkey, hT, hpersist]
            rfl
          have hadmT : (tokenUpdateFn (tokTd base e s) r).admin_disabled =
              false := by
            rw [admin_updateFn]
            exact hradm
          have hTfix : T.tokens.map (tokenUpdateFn (tokTd base e s)) =
              T.tokens := by
            apply map_fix
            intro t ht
            by_cases hcadr : t.contract_address = tokenKey (tokTd base e s)
            · have htmem : t ∈ c₁.tokens.filter
                  (fun x => x.contract_address = e.1) := by
                rw [List.mem_filter]
                refine ⟨hT ▸ ht, ?_⟩
                rw [hkey] at hcadr
                simp [hcadr]
              rw [hpersist] at htmem
              have : t = tokenUpdateFn (tokTd base e s) r := by
                simpa using htmem
              rw [this, tokenUpdateFn_idem]
            · unfold tokenUpdateFn
              rw [if_neg hcadr]
          have hupT : upsertToken T (tokTd base e s) =
              some (T, ⟨r.id, false⟩) := by
            rw [upsertToken_found_update hfT hadmT, hTfix, id_updateFn]
          have hstepT : tokStep base (T, κ) e = (T, cacheSet κ s r.id) := by
            rw [tokStep_proc_upserted base T κ e hE hs hct hupT]
          rw [hstepT]
          exact h10 T hT
    · have hfcE : c.tokens.find? (fun x => x.contract_address = e.1) =
          none := by
        rw [← hkey]
        exact hfc
      have hempty : c.tokens.filter (fun x => x.contract_address = e.1) =
          [] := by
        rw [List.filter_eq_nil_iff]
        intro x hx
        have := List.find?_eq_none.mp hfcE x hx
        simpa using this
      by_cases hany : c.tokens.any (fun x => x.symbol = s) = true
      · -- no row with this contract but the symbol is taken: the plain
        -- INSERT raises, the catch falls back to a symbol lookup
        have hup : upsertToken c (tokTd base e s) = none :=
          upsertToken_conflict hfc hany
        obtain ⟨x, hx, hxs⟩ := List.any_eq_true.mp hany
        have hgts : ∃ row, getTokenBySymbol c s = some row := by
          rcases hg : getTokenBySymbol c s with _ | row
          · unfold getTokenBySymbol at hg
            have := List.find?_eq_none.mp hg x hx
            simp only [decide_eq_true_eq] at hxs
            rw [hxs] at this
            simp at this
          · exact ⟨row, rfl⟩
        obtain ⟨row, hgt⟩ := hgts
        have hrowmem : row ∈ c.tokens :=
          List.mem_of_find?_eq_some hgt
        have hrowid : row.id ≠ 0 := hid row hrowmem
        have hstep : tokStep base (c, κ) e = (c, cacheSet κ s row.id) :=
          tokStep_proc_fallback base c κ e hE hs hct hup hgt
        obtain ⟨c₁, κ₁, h1, h2, h3, h4, h5, h6, h7, h8, h9, h10⟩ :=
          ih c (cacheSet κ s row.id) hnd hid hnx
        have htr : cacheTruthy (cacheSet κ s row.id) s = some row.id :=
          cacheTruthy_set_self κ s hrowid
        refine ⟨c₁, κ₁, ?_, h2, h3, h4, h5, h6, ?_, h8, ?_, ?_⟩
        · rw [List.foldl_cons, hstep]
          exact h1
        · intro s' i' h'
          exact h7 s' i' (cacheTruthy_set_preserve h' row.id hct)
        · intro k' s' hE' hi'
          obtain ⟨i', hi'⟩ := hi'
          exact h9 k' s' hE' ⟨i', cacheTruthy_set_preserve hi' row.id hct⟩
        · intro T hT
          rw [List.foldl_cons]
          obtain ⟨ext, hext⟩ := h8
          have hpersist : c₁.tokens.filter
              (fun t => t.contract_address = e.1) = [] := by
            rw [h9 e.1 s hE ⟨row.id, htr⟩]
            exact hempty
          have hfT : T.tokens.find?
              (fun x => x.contract_address = tokenKey (tokTd base e s)) =
              none := by
            rw [find?_eq_head?_filter, hkey, hT, hpersist]
            rfl
          have hanyT : T.tokens.any (fun x => x.symbol = s) = true := by
            have := any_of_map_prefix tokenSkel
              (fun sk => sk.2.1 = s) c.tokens T.tokens ext
              (by rw [hT]; exact hext) hany
            exact this
          have hupT : upsertToken T (tokTd base e s) = none :=
            upsertToken_conflict hfT hanyT
          have hfind := find?_of_map_prefix tokenSkel
            (fun sk => upperStr sk.2.1 = upperStr s) c.tokens T.tokens ext
            (by rw [hT]; exact hext) (r := row) hgt
          obtain ⟨row', hrow', hskelrow⟩ := hfind
          have hrowid' : row'.id = row.id := by
            have := congrArg (fun x => x.1) hskelrow
            simpa [tokenSkel] using this
          have hgtT : getTokenBySymbol T s = some row' := hrow'
          have hstepT : tokStep base (T, κ) e = (T, cacheSet κ s row.id) := by
            rw [tokStep_proc_fallback base T κ e hE hs hct hupT hgtT, hrowid']
          rw [hstepT]
          exact h10 T hT
      · -- fresh contract and fresh symbol: plain INSERT
        simp only [Bool.not_eq_true] at hany
        have hup := upsertToken_insert hfc hany
        have hstep : tokStep base (c, κ) e =
            ({ c with
                tokens := c.tokens ++ [tokenInsertRow c (tokTd base e s)]
                nextId := c.nextId + 1 },
             cacheSet κ s c.nextId) := by
          rw [tokStep_proc_upserted base c κ e hE hs hct hup]
        have hnewcontract : (tokenInsertRow c (tokTd base e s)).contract_address
            = e.1 := by
          show tokenKey (tokTd base e s) = e.1
          exact hkey
        have hnotin : e.1 ∉ c.tokens.map TokenRow.contract_address := by
          intro hin
          obtain ⟨x, hx, hxc⟩ := List.mem_map.mp hin
          have := List.find?_eq_none.mp hfcE x hx
          simp only [decide_eq_true_eq] at this
          exact this hxc
        have hndstep : (((c.tokens ++ [tokenInsertRow c (tokTd base e s)]).map
            TokenRow.contract_address)).Nodup := by
          rw [List.map_append]
          apply List.Nodup.append hnd
          · exact List.nodup_singleton _
          · intro a ha hb
            simp only [List.map_cons, List.map_nil, List.mem_singleton,
              hnewcontract] at hb
            rw [hb] at ha
            exact hnotin ha
        have hidstep : ∀ t ∈ c.tokens ++ [tokenInsertRow c (tokTd base e s)],
            t.id ≠ 0 := by
          intro t ht
          rcases List.mem_append.mp ht with h | h
          · exact hid t h
          · simp only [List.mem_singleton] at h
            rw [h]
            exact hnx
        obtain ⟨c₁, κ₁, h1, h2, h3, h4, h5, h6, h7, h8, h9, h10⟩ :=
          ih { c with
              tokens := c.tokens ++ [tokenInsertRow c (tokTd base e s)]
              nextId := c.nextId + 1 }
            (cacheSet κ s c.nextId) hndstep hidstep (Nat.succ_ne_zero _)
        have htr : cacheTruthy (cacheSet κ s c.nextId) s = some c.nextId :=
          cacheTruthy_set_self κ s hnx
        refine ⟨c₁, κ₁, ?_, h2, h3, h4, h5, h6, ?_, ?_, ?_, ?_⟩
        · rw [List.foldl_cons, hstep]
          exact h1
        · intro s' i' h'
          exact h7 s' i' (cacheTruthy_set_preserve h' c.nextId hct)
        · obtain ⟨ext, hext⟩ := h8
          refine ⟨tokenSkel (tokenInsertRow c (tokTd base e s)) :: ext, ?_⟩
          rw [hext]
          show (c.tokens ++ [tokenInsertRow c (tokTd base e s)]).map
              tokenSkel ++ ext = _
          rw [List.map_append]
          simp
        · intro k' s' hE' hi'
          obtain ⟨i', hi'⟩ := hi'
          have hkne : k' ≠ e.1 := by
            intro hkk
            rw [hkk] at hE'
            rw [hE] at hE'
            cases hE'
            rw [hi'] at hct
            cases hct
          rw [h9 k' s' hE' ⟨i', cacheTruthy_set_preserve hi' c.nextId hct⟩]
          show (c.tokens ++ [tokenInsertRow c (tokTd base e s)]).filter
              (fun t => t.contract_address = k') = _
          rw [List.filter_append]
          have : [tokenInsertRow c (tokTd base e s)].filter
              (fun t => t.contract_address = k') = [] := by
            simp [hnewcontract, Ne.symm hkne]
          rw [this, List.append_nil]
        · intro T hT
          rw [List.foldl_cons]
          have hpersist : c₁.tokens.filter
              (fun t => t.contract_address = e.1) =
              [tokenInsertRow c (tokTd base e s)] := by
            rw [h9 e.1 s hE ⟨c.nextId, htr⟩]
            show (c.tokens ++ [tokenInsertRow c (tokTd base e s)]).filter
                (fun t => t.contract_address = e.1) = _
            rw [List.filter_append, hempty]
            simp [hnewcontract]
          have hfT : T.tokens.find?
              (fun x => x.contract_address = tokenKey (tokTd base e s)) =
              some (tokenInsertRow c (tokTd base e s)) := by
            rw [find?_eq_head?_filter, hkey, hT, hpersist]
            rfl
          have hadmT : (tokenInsertRow c (tokTd base e s)).admin_disabled =
              false := rfl
          have hTfix : T.tokens.map (tokenUpdateFn (tokTd base e s)) =
              T.tokens := by
            apply map_fix
            intro t ht
            by_cases hcadr : t.contract_address = tokenKey (tokTd base e s)
            · have htmem : t ∈ c₁.tokens.filter
                  (fun x => x.contract_address = e.1) := by
                rw [List.mem_filter]
                refine ⟨hT ▸ ht, ?_⟩
                rw [hkey] at hcadr
                simp [hcadr]
              rw [hpersist] at htmem
              have : t = tokenInsertRow c (tokTd base e s) := by
                simpa using htmem
              rw [this, tokenUpdateFn_insertRow]
            · unfold tokenUpdateFn
              rw [if_neg hcadr]
          have hupT : upsertToken T (tokTd base e s) =
              some (T, ⟨c.nextId, false⟩) := by
            rw [upsertToken_found_update hfT hadmT, hTfix]
            rfl
          have hstepT : tokStep base (T, κ) e = (T, cacheSet κ s c.nextId) := by
            rw [tokStep_proc_upserted base T κ e hE hs hct hupT]
          rw [hstepT]
          exact h10 T hT

theorem staleCondition_deactFn (g : Nat) (keep : List Nat)
    (r : TradingPairRow) :
    staleCondition g keep (deactFn g keep r) = false := by
  unfold deactFn
  by_cases h : staleCondition g keep r = true
  · rw [if_pos h]
    unfold staleCondition at *
    simp only [Bool.and_eq_true, Bool.not_eq_true'] at h
    simp [h.1.1.1, h.1.1.2, h.2]
  · rw [if_neg h]
    simpa using h

theorem deactFn_of_not_stale {g : Nat} {keep : List Nat}
    {r : TradingPairRow} (h : staleCondition g keep r = false) :
    deactFn g keep r = r := by
  unfold deactFn
  rw [h]
  rfl

theorem deactFn_satRow_kept (g : Nat) (keep : List Nat) (pd : PairData)
    {i : Nat} (now : Int) (hi : i ∈ keep) :
    deactFn g keep (satRow pd i now) = satRow pd i now := by
  apply deactFn_of_not_stale
  unfold staleCondition
  have hcon : keep.contains (satRow pd i now).id = true := by
    simpa [satRow] using List.elem_eq_true_of_mem hi
  rw [hcon]
  simp

theorem filter_rowKey_map_deactFn (g : Nat) (keep : List Nat)
    (l : List TradingPairRow) (κ : Nat × Nat × Nat) :
    (l.map (deactFn g keep)).filter (fun r => rowKey r = κ) =
      (l.filter (fun r => rowKey r = κ)).map (deactFn g keep) :=
  filter_map_pres (fun x => by rw [rowKey_deactFn]) l

/-- Replaying the directed-upsert trace over a catalog already saturated at
every trace key (the i-th key's rows being exactly the saturated row with the
i-th recorded id) changes nothing: every upsert takes the non-admin UPDATE
branch, reports the recorded id, and rewrites the row to itself. -/
theorem pairRun_idem (now : Int) :
    ∀ (pds : List PairData) (ids : List Nat) (st : PairLoopState),
      ids.length = pds.length →
      (∀ i (h : i < pds.length),
        st.cat.pairs.filter (fun r => rowKey r = pdKey (pds.get ⟨i, h⟩)) =
          [satRow (pds.get ⟨i, h⟩) (ids.getD i 0) now]) →
      List.foldl (pairUpsertStep now) st pds =
        ⟨st.cat, st.updatedPairIds ++ ids, st.pairsUpdated + pds.length,
         st.pairsSkipped, st.calls ++ pds⟩ := by
  intro pds
  induction pds with
  | nil =>
    intro ids st hlen _
    rw [List.length_nil, List.length_eq_zero] at hlen
    subst hlen
    obtain ⟨cat, u, pu, sk, calls⟩ := st
    simp
  | cons pd rest ih =>
    intro ids st hlen hsat
    cases ids with
    | nil => cases hlen
    | cons i₀ idsr =>
      have hsat0 : st.cat.pairs.filter (fun r => rowKey r = pdKey pd) =
          [satRow pd i₀ now] := by
        have := hsat 0 (by simp)
        simpa using this
      have hf : st.cat.pairs.find? (pairKeyMatches pd) =
          some (satRow pd i₀ now) := by
        rw [find?_rowKey_of_pairKeyMatches, find?_eq_head?_filter, hsat0]
        rfl
      have hadm : (satRow pd i₀ now).admin_disabled = false := rfl
      have hmapfix : st.cat.pairs.map (pairUpdateFn pd now) =
          st.cat.pairs := by
        apply map_fix
        intro q hq
        by_cases hk : rowKey q = pdKey pd
        · have hqmem : q ∈ st.cat.pairs.filter
              (fun r => rowKey r = pdKey pd) :=
            List.mem_filter.mpr ⟨hq, by simp [hk]⟩
          rw [hsat0] at hqmem
          have : q = satRow pd i₀ now := by simpa using hqmem
          rw [this, pairUpdateFn_satRow]
        · unfold pairUpdateFn
          rw [if_neg]
          rw [pairKeyMatches_eq]
          simp [hk]
      have hstep : pairUpsertStep now st pd =
          ⟨st.cat, st.updatedPairIds ++ [i₀], st.pairsUpdated + 1,
           st.pairsSkipped, st.calls ++ [pd]⟩ := by
        rw [pairUpsertStep_update now st pd (satRow pd i₀ now) hf hadm]
        rw [hmapfix]
        show (⟨⟨st.cat.tokens, st.cat.gateways, st.cat.pairs,
          st.cat.nextId⟩, _, _, _, _⟩ : PairLoopState) = _
        rfl
      rw [List.foldl_cons, hstep]
      have hsatr : ∀ i (h : i < rest.length),
          st.cat.pairs.filter
            (fun r => rowKey r = pdKey (rest.get ⟨i, h⟩)) =
            [satRow (rest.get ⟨i, h⟩) (idsr.getD i 0) now] := by
        intro i h
        have := hsat (i + 1) (by simpa using Nat.succ_lt_succ h)
        simpa using this
      have hlenr : idsr.length = rest.length := by
        simpa using hlen
      have := ih idsr
        ⟨st.cat, st.updatedPairIds ++ [i₀], st.pairsUpdated + 1,
         st.pairsSkipped, st.calls ++ [pd]⟩ hlenr hsatr
      rw [this]
      simp [List.append_assoc, Nat.add_comm, Nat.add_assoc, Nat.add_left_comm]

theorem trace_ext_isSome (cache : Cache) (g : Nat) :
    ∀ (vps : List RawPair) (pd : PairData),
      pd ∈ syncTrace cache g vps → pd.pair_id_external.isSome = true := by
  intro vps pd hmem
  unfold syncTrace at hmem
  obtain ⟨p, _, hcall⟩ := List.mem_flatMap.mp hmem
  unfold upsertCallsForPair at hcall
  rcases h0 : resolveTokenId cache p.token0_id with _ | a <;>
    rcases h1 : resolveTokenId cache p.token1_id with _ | b <;>
    rw [h0, h1] at hcall <;> simp at hcall
  rcases hcall with h | h <;> rw [h] <;> rfl

theorem upsertCallsForPair_length_two (cache : Cache) (g : Nat)
    (p : RawPair) (h0 : (resolveTokenId cache p.token0_id).isSome = true)
    (h1 : (resolveTokenId cache p.token1_id).isSome = true) :
    (upsertCallsForPair cache g p).length = 2 := by
  unfold upsertCallsForPair
  obtain ⟨a, ha⟩ := Option.isSome_iff_exists.mp h0
  obtain ⟨b, hb⟩ := Option.isSome_iff_exists.mp h1
  rw [ha, hb]
  rfl

theorem trace_length (cache : Cache) (g : Nat) :
    ∀ (vps : List RawPair),
      (∀ p ∈ vps, (resolveTokenId cache p.token0_id).isSome = true ∧
        (resolveTokenId cache p.token1_id).isSome = true) →
      (syncTrace cache g vps).length = 2 * vps.length := by
  intro vps
  induction vps with
  | nil => intro _; rfl
  | cons p rest ih =>
    intro hres
    unfold syncTrace
    rw [List.flatMap_cons, List.length_append]
    have hp := hres p (List.mem_cons_self _ _)
    rw [upsertCallsForPair_length_two cache g p hp.1 hp.2]
    have := ih (fun q hq => hres q (List.mem_cons_of_mem _ hq))
    unfold syncTrace at this
    rw [this]
    simp [List.length_cons]
    ring

theorem syncBody_ok_eq (c : Catalog) (data : FeedData) (minReserve : Int)
    (base : String) (now : Int) (gw : GatewayRow) (q : Catalog) (κ : Cache)
    (L : PairLoopState) (dc : Catalog) (dr : DeactivateResult)
    (hgw : getGatewayBySlug c "swopus" = some gw)
    (hgwd : gw.admin_disabled = false)
    (htok : tokenPhase base c data.tokens = (q, κ))
    (hL : pairPhase κ gw.id now q (filterValidPairs data.pairs minReserve) =
      L)
    (hD : deactivateStalePairsRespectingAdmin L.cat gw.id L.updatedPairIds =
      (dc, dr)) :
    syncBody c (.ok data) minReserve base now =
      (dc, .completed L.pairsUpdated L.pairsSkipped dr.count
        ((dc.pairs.filter
          (fun r => r.gateway_id = gw.id && r.is_active)).length)) := by
  simp only [syncBody, hgw, hgwd, Bool.false_eq_true, if_false, htok, hL, hD]

theorem syncSwopus_enter (c : Catalog) (feed : Except String FeedData)
    (minReserve : Int) (base : String) (now : Int)
    (out : Catalog × SyncResult)
    (hbody : syncBody c feed minReserve base now = out) :
    syncSwopus ⟨c, false⟩ feed minReserve base now =
      (⟨out.1, false⟩, some out.2) := by
  simp only [syncSwopus, Bool.false_eq_true, if_false, hbody]

/-- C6 as amended: the claim's "updated count equal to the pair count" is
wrong by a factor of two, because the pass upserts two directed rows per feed
pair.  Under the store shape the schema guarantees (unique contract addresses
and nonzero SERIAL ids for tokens, unique natural pair keys, no admin-disabled
pair rows), with the swopus gateway present and enabled and a fixed feed whose
valid pairs all resolve in the pass's symbol cache and yield pairwise distinct
directed keys, a second reconciliation pass run immediately after a first pass
on identical data returns the first pass's store state unchanged and reports
updated = 2 × (valid pair count), skipped = 0 and deactivated = 0. -/
theorem C6_second_pass_idempotent
    (c₀ : Catalog) (data : FeedData) (minReserve : Int) (base : String)
    (now : Int) (gw : GatewayRow)
    (hgw : getGatewayBySlug c₀ "swopus" = some gw)
    (hgwd : gw.admin_disabled = false)
    (hnoadm : ∀ r ∈ c₀.pairs, r.admin_disabled = false)
    (hkeys : (c₀.pairs.map rowKey).Nodup)
    (hcontr : (c₀.tokens.map TokenRow.contract_address).Nodup)
    (hids : ∀ t ∈ c₀.tokens, t.id ≠ 0)
    (hnx : c₀.nextId ≠ 0)
    (hres : ∀ p ∈ filterValidPairs data.pairs minReserve,
      (resolveTokenId (tokenPhase base c₀ data.tokens).2 p.token0_id).isSome
        = true ∧
      (resolveTokenId (tokenPhase base c₀ data.tokens).2 p.token1_id).isSome
        = true)
    (htrace : ((syncTrace (tokenPhase base c₀ data.tokens).2 gw.id
      (filterValidPairs data.pairs minReserve)).map pdKey).Nodup) :
    ∃ (st₂ : SyncState) (r₁ : SyncResult) (a : Nat),
      syncSwopus ⟨c₀, false⟩ (.ok data) minReserve base now =
        (st₂, some r₁) ∧
      syncSwopus st₂ (.ok data) minReserve base now =
        (st₂, some (.completed
          (2 * (filterValidPairs data.pairs minReserve).length) 0 0 a)) := by
  obtain ⟨c₁, κ₁, h1, h2, h3, h4, h5, h6, h7, h8, h9, h10⟩ :=
    tokReplay base data.tokens c₀ [] hcontr hids hnx
  have htok : tokenPhase base c₀ data.tokens = (c₁, κ₁) := h1
  simp only [htok] at hres htrace
  have hadm1 : ∀ r ∈ c₁.pairs, r.admin_disabled = false := by
    rw [h2]
    exact hnoadm
  have hkeys1 : (c₁.pairs.map rowKey).Nodup := by
    rw [h2]
    exact hkeys
  obtain ⟨C, ids, heqL, hlen, hadmC, hndC, htokC, hgwC, hframe, hsat⟩ :=
    pairRun_characterization now (syncTrace κ₁ gw.id
      (filterValidPairs data.pairs minReserve)) ⟨c₁, [], 0, 0, []⟩
      hadm1 hkeys1 htrace (trace_ext_isSome κ₁ gw.id _)
  simp only [List.nil_append, Nat.zero_add] at heqL
  have hL1 : pairPhase κ₁ gw.id now c₁
      (filterValidPairs data.pairs minReserve) =
      ⟨C, ids, (syncTrace κ₁ gw.id
        (filterValidPairs data.pairs minReserve)).length, 0,
       syncTrace κ₁ gw.id (filterValidPairs data.pairs minReserve)⟩ := by
    unfold pairPhase
    rw [pairPhase_as_trace]
    exact heqL
  rcases hD1 : deactivateStalePairsRespectingAdmin C gw.id ids with ⟨D, dr1⟩
  have hDt : D.tokens = C.tokens := by
    unfold deactivateStalePairsRespectingAdmin at hD1
    by_cases hie : ids.isEmpty = true
    · rw [if_pos hie] at hD1
      injection hD1 with hA hB
      rw [← hA]
    · rw [if_neg hie] at hD1
      injection hD1 with hA hB
      rw [← hA]
  have hDg : D.gateways = C.gateways := by
    unfold deactivateStalePairsRespectingAdmin at hD1
    by_cases hie : ids.isEmpty = true
    · rw [if_pos hie] at hD1
      injection hD1 with hA hB
      rw [← hA]
    · rw [if_neg hie] at hD1
      injection hD1 with hA hB
      rw [← hA]
  have hDp : (ids = [] ∧ D.pairs = C.pairs) ∨
      D.pairs = C.pairs.map (deactFn gw.id ids) := by
    unfold deactivateStalePairsRespectingAdmin at hD1
    by_cases hie : ids.isEmpty = true
    · rw [if_pos hie] at hD1
      injection hD1 with hA hB
      exact Or.inl ⟨List.isEmpty_iff.mp hie, by rw [← hA]⟩
    · rw [if_neg hie] at hD1
      injection hD1 with hA hB
      exact Or.inr (by rw [← hA])
  have hkept : ∀ i, i < ids.length → ids.getD i 0 ∈ ids := by
    intro i h
    rw [List.getD_eq_getElem _ _ h]
    exact List.getElem_mem h
  have hDsat : ∀ i (h : i < (syncTrace κ₁ gw.id
      (filterValidPairs data.pairs minReserve)).length),
      D.pairs.filter (fun r => rowKey r =
        pdKey ((syncTrace κ₁ gw.id
          (filterValidPairs data.pairs minReserve)).get ⟨i, h⟩)) =
      [satRow ((syncTrace κ₁ gw.id
          (filterValidPairs data.pairs minReserve)).get ⟨i, h⟩)
        (ids.getD i 0) now] := by
    intro i h
    rcases hDp with ⟨-, hDC⟩ | hDC
    · rw [hDC]
      exact hsat i h
    · rw [hDC, filter_rowKey_map_deactFn, hsat i h, List.map_cons,
        List.map_nil,
        deactFn_satRow_kept gw.id ids _ now (hkept i (by rw [hlen]; exact h))]
  have hDtok1 : D.tokens = c₁.tokens := by
    rw [hDt]
    exact htokC
  have htok2 : tokenPhase base D data.tokens = (D, κ₁) := h10 D hDtok1
  have hL2 : pairPhase κ₁ gw.id now D
      (filterValidPairs data.pairs minReserve) =
      ⟨D, ids, (syncTrace κ₁ gw.id
        (filterValidPairs data.pairs minReserve)).length, 0,
       syncTrace κ₁ gw.id (filterValidPairs data.pairs minReserve)⟩ := by
    unfold pairPhase
    rw [pairPhase_as_trace]
    have := pairRun_idem now (syncTrace κ₁ gw.id
      (filterValidPairs data.pairs minReserve)) ids ⟨D, [], 0, 0, []⟩
      hlen hDsat
    simpa using this
  have hD2 : ∃ o2, deactivateStalePairsRespectingAdmin D gw.id ids =
      (D, ⟨0, o2⟩) := by
    by_cases hie : ids.isEmpty = true
    · refine ⟨none, ?_⟩
      unfold deactivateStalePairsRespectingAdmin
      rw [if_pos hie]
    · have hallfalse : ∀ r ∈ D.pairs, staleCondition gw.id ids r = false := by
        rcases hDp with ⟨hidsnil, -⟩ | hDC
        · exact absurd (by rw [hidsnil]; rfl) hie
        · rw [hDC]
          intro r hr
          obtain ⟨x, hx, rfl⟩ := List.mem_map.mp hr
          exact staleCondition_deactFn gw.id ids x
      have hfilter : D.pairs.filter (staleCondition gw.id ids) = [] := by
        rw [List.filter_eq_nil_iff]
        intro r hr
        rw [hallfalse r hr]
        simp
      have hmapD : D.pairs.map (deactFn gw.id ids) = D.pairs :=
        map_fix (fun r hr => deactFn_of_not_stale (hallfalse r hr))
      refine ⟨some [], ?_⟩
      unfold deactivateStalePairsRespectingAdmin
      rw [if_neg hie, hfilter, hmapD]
      rfl
  obtain ⟨o2, hD2⟩ := hD2
  have hDg0 : D.gateways = c₀.gateways := by
    rw [hDg, hgwC]
    exact h3
  have hgw2 : getGatewayBySlug D "swopus" = some gw := by
    rw [getGatewayBySlug_congr hDg0]
    exact hgw
  have hlen2 : (syncTrace κ₁ gw.id
      (filterValidPairs data.pairs minReserve)).length =
      2 * (filterValidPairs data.pairs minReserve).length :=
    trace_length κ₁ gw.id _ hres
  have hbody1 := syncBody_ok_eq c₀ data minReserve base now gw c₁ κ₁
    ⟨C, ids, (syncTrace κ₁ gw.id
      (filterValidPairs data.pairs minReserve)).length, 0,
     syncTrace κ₁ gw.id (filterValidPairs data.pairs minReserve)⟩ D dr1
    hgw hgwd htok hL1 hD1
  have hrun1 := syncSwopus_enter c₀ (.ok data) minReserve base now _ hbody1
  have hbody2 := syncBody_ok_eq D data minReserve base now gw D κ₁
    ⟨D, ids, (syncTrace κ₁ gw.id
      (filterValidPairs data.pairs minReserve)).length, 0,
     syncTrace κ₁ gw.id (filterValidPairs data.pairs minReserve)⟩ D ⟨0, o2⟩
    hgw2 hgwd htok2 hL2 hD2
  have hrun2 := syncSwopus_enter D (.ok data) minReserve base now _ hbody2
  rw [hlen2] at hrun2
  exact ⟨⟨D, false⟩, _, _, hrun1, hrun2⟩

/-- C6 counterexample: on a catalog holding only an enabled swopus gateway and
a feed of two tokens and ONE liquid pair, the second of two back-to-back
passes does reach the same store state, but reports updated = 2 — one per
directed row — not 1, the feed's pair count, refuting the claimed count
equality. -/
theorem C6_counterexample :
    (filterValidPairs feedC6.pairs 1000000).length = 1 ∧
    (syncSwopus (syncSwopus ⟨catalogC6, false⟩ (.ok feedC6) 1000000 "base"
        7).1 (.ok feedC6) 1000000 "base" 7).2 =
      some (.completed 2 0 0 2) ∧
    ((syncSwopus (syncSwopus ⟨catalogC6, false⟩ (.ok feedC6) 1000000 "base"
        7).1 (.ok feedC6) 1000000 "base" 7).1 =
      (syncSwopus ⟨catalogC6, false⟩ (.ok feedC6) 1000000 "base" 7).1) ∧
    ¬ (2 = 1) := by
  decide

/-- C6 witness: the amended statement instantiated at the concrete one-pair
feed, every hypothesis discharged by evaluation. -/
theorem C6_witness :
    ∃ (st₂ : SyncState) (r₁ : SyncResult) (a : Nat),
      syncSwopus ⟨catalogC6, false⟩ (.ok feedC6) 1000000 "base" 7 =
        (st₂, some r₁) ∧
      syncSwopus st₂ (.ok feedC6) 1000000 "base" 7 =
        (st₂, some (.completed
          (2 * (filterValidPairs feedC6.pairs 1000000).length) 0 0 a)) :=
  C6_second_pass_idempotent catalogC6 feedC6 1000000 "base" 7
    ⟨1, "Swopus", "swopus", true, false⟩ (by decide) (by decide)
    (by decide) (by decide) (by decide) (by decide) (by decide)
    (by decide) (by decide)
